import Mathlib

/-!
Verification of the pacman-ostree composition tool against its
natural-language specification.  The Rust sources (`compose.rs`,
`layered_packages.rs`, `container.rs`, `pacman_manager.rs`, `main.rs`)
are shallowly embedded below: pure fragments become Lean functions,
fallible fragments return `Except`, and the external collaborators
(the ostree object store, the std filesystem API) are modelled by
explicit state passing over executable data structures.
-/

namespace PacmanOstree

/-- Association-list lookup, modelling `HashMap::get` / `BTreeMap::get`
(first binding of the key wins; maps built by the code keep keys unique). -/
def lookupA {α : Type} (m : List (String × α)) (k : String) : Option α :=
  (m.find? (fun e => e.1 = k)).map (fun e => e.2)

/-- Assoc-map insert replacing the binding of an existing key (the
`BTreeMap::insert` / ref-table update model; also `MutableTree` child
replacement). -/
def insertAssoc {α : Type} : List (String × α) → String → α → List (String × α)
  | [], k, v => [(k, v)]
  | (k', v') :: rest, k, v =>
    if k' = k then (k, v) :: rest else (k', v') :: insertAssoc rest k v

/-- Removal of all bindings of one key (the model of removing a map entry). -/
def removeKeyAll {α : Type} : List (String × α) → String → List (String × α)
  | [], _ => []
  | (k', v') :: rest, k =>
    if k' = k then removeKeyAll rest k else (k', v') :: removeKeyAll rest k

/-! ## Pacman package metadata (`pacman_manager.rs`)

`PacmanPackageMeta` and the `desc` / `files` parsers, translated from
`parse_desc_from_bytes`, `parse_files_from_bytes` and the per-package body of
`read_packages_from_commit`.  The byte stream is modelled after the
`BufRead::lines` split, i.e. as the list of its lines. -/

structure PacmanPackageMeta where
  pkgname : String
  pkgver : String
  arch : String
  size : Nat
  buildtime : Nat
  src_pkg : String
  provided_files : List String
  changelogs : List Nat
  deriving Repr, DecidableEq

/-- A `%KEY%` header line: `line.starts_with('%') && line.ends_with('%')`. -/
def isHeaderLine (line : String) : Bool :=
  line.startsWith "%" && line.endsWith "%"

/-- Rust `line.trim_matches('%')`: strip all leading and trailing `%` characters. -/
def trimPercent (s : String) : String :=
  String.mk ((((s.toList.dropWhile (fun c => c = '%')).reverse.dropWhile
      (fun c => c = '%')).reverse))

/-- Rust `fields.entry(k).or_default()`: make sure the key is present. -/
def ensureKey (m : List (String × List String)) (k : String) : List (String × List String) :=
  match lookupA m k with
  | some _ => m
  | none => m ++ [(k, [])]

/-- Rust `fields.get_mut(&k).unwrap().push(line)`. -/
def pushVal (m : List (String × List String)) (k : String) (line : String) :
    List (String × List String) :=
  m.map (fun e => if e.1 = k then (e.1, e.2 ++ [line]) else e)

/-- The header/value accumulation loop of `parse_desc_from_bytes`. -/
def descFold : List String → String → List (String × List String) → List (String × List String)
  | [], _, fields => fields
  | line :: rest, currentKey, fields =>
    if isHeaderLine line then
      descFold rest (trimPercent line) (ensureKey fields (trimPercent line))
    else if currentKey ≠ "" then
      descFold rest currentKey (pushVal fields currentKey line)
    else
      descFold rest currentKey fields

/-- Model of `parse_desc_from_bytes`, over the line list of the input bytes. -/
def parse_desc_from_bytes (lines : List String) : PacmanPackageMeta :=
  let fields := descFold lines "" []
  let pkgname := (((lookupA fields "NAME").bind List.head?).getD "")
  let pkgver := (((lookupA fields "VERSION").bind List.head?).getD "")
  let arch := (((lookupA fields "ARCH").bind List.head?).getD "")
  let size := ((((lookupA fields "SIZE").bind List.head?).bind String.toNat?).getD 0)
  let buildtime := ((((lookupA fields "BUILDDATE").bind List.head?).bind String.toNat?).getD 0)
  { pkgname := pkgname
    pkgver := pkgver
    arch := arch
    size := size
    buildtime := buildtime
    src_pkg := pkgname
    provided_files := []
    changelogs := [] }

/-- Model of `parse_files_from_bytes`: the `%FILES%` section, each path given a
leading slash. -/
def parse_files_from_bytes (lines : List String) : List String :=
  go lines false
where
  go : List String → Bool → List String
  | [], _ => []
  | line :: rest, inSection =>
    let t := line.trim
    if t = "%FILES%" then go rest true
    else if inSection then
      if t = "" then []
      else (if t.startsWith "/" then t else "/" ++ t) :: go rest inSection
    else go rest inSection

/-- One package entry of `read_packages_from_commit`: parse `desc`, then
overwrite `provided_files` from the optional `files` file. -/
def read_package_entry (descLines : List String) (filesLines : Option (List String)) :
    PacmanPackageMeta :=
  let m := parse_desc_from_bytes descLines
  match filesLines with
  | some fl => { m with provided_files := parse_files_from_bytes fl }
  | none => m

/-! ## Chunked encapsulator package groups (`container.rs`)

The `ObjectSourceMeta` values inserted for each pacman package in
`container_encapsulate` (second insertion loop, with the computed
change-time offset). -/

structure ObjectSourceMeta where
  identifier : String
  name : String
  srcid : String
  change_time_offset : Nat
  change_frequency : Nat
  deriving Repr, DecidableEq

/-- The package content-group built in `container_encapsulate` for one
`PacmanPackageMeta` (identifier `"name-version.arch"`, srcid from
`src_pkg`, change frequency from the changelog count). -/
def pkg_source_meta (p : PacmanPackageMeta) (lowest_change_time : Nat) : ObjectSourceMeta :=
  { identifier := p.pkgname ++ "-" ++ p.pkgver ++ "." ++ p.arch
    name := p.pkgname
    srcid := p.src_pkg
    change_time_offset := (p.buildtime - lowest_change_time) / 3600
    change_frequency := p.changelogs.length }

/-! ## Size delta of the layered rebuild (`layered_packages.rs`) -/

/-- Model of `calculate_size_delta_for_layered`: keep the layered names absent from
the base map, then sum the sizes found by looking those very names up in
the base map. -/
def calculate_size_delta_for_layered (base : List (String × PacmanPackageMeta))
    (layered : List String) : Int :=
  (((layered.filter (fun pkg => ¬ (lookupA base pkg).isSome)).filterMap
      (fun pkg => (lookupA base pkg).map (fun p => p.size))).foldl (· + ·) 0 : Nat)

/-- The `LayeringResult` record assembled at the end of `rebuild_with_layers`. -/
structure LayeringResult where
  new_commit : String
  deployment_index : Option Nat
  newly_installed : List String
  total_layered : Nat
  size_delta : Int
  deriving Repr

/-- The result constructed by `rebuild_with_layers` (its `size_delta` field is
`calculate_size_delta_for_layered(&base_packages, &state.layered_packages)`). -/
def rebuild_result (base : List (String × PacmanPackageMeta)) (layered : List String)
    (new_commit : String) (deployment_index : Option Nat) : LayeringResult :=
  { new_commit := new_commit
    deployment_index := deployment_index
    newly_installed := layered.filter (fun pkg => ¬ (lookupA base pkg).isSome)
    total_layered := layered.length
    size_delta := calculate_size_delta_for_layered base layered }

/-! ## The MutableTree and the `/etc` to `/usr/etc` relocation (`compose.rs`)

`ostree::MutableTree` is an in-memory directory-tree builder: named children
are either leaves (file checksums) or sub-trees, and the node carries a
metadata checksum and, once the tree has been persisted, a contents
checksum.  Children are modelled as an association list
(name, leaf-checksum or sub-tree). -/

inductive MTree where
  | mk (metadata_checksum contents_checksum : Option String)
      (children : List (String × (String ⊕ MTree))) : MTree

def MTree.metadataChecksum : MTree → Option String
  | .mk m _ _ => m

def MTree.contentsChecksum : MTree → Option String
  | .mk _ c _ => c

def MTree.children : MTree → List (String × (String ⊕ MTree))
  | .mk _ _ cs => cs

/-- Lookup of a direct child by name. -/
def MTree.lookupName (t : MTree) (name : String) : Option (String ⊕ MTree) :=
  lookupA t.children name

/-- Modelled from the spec: `MutableTree::lookup` of the external ostree
library, applied to a path already split on `/` ("look up `etc` and
`usr/etc` as sub-trees of the MutableTree"). -/
def mtree_lookup (t : MTree) : List String → Option (String ⊕ MTree)
  | [] => none
  | [n] => t.lookupName n
  | n :: rest =>
    match t.lookupName n with
    | some (Sum.inr sub) => mtree_lookup sub rest
    | _ => none

/-- Model of `MtreeEntry::require_dir`, with the `.context(...)` annotation of the
call sites prepended. -/
def require_dir (e : String ⊕ MTree) (ctx : String) : Except String MTree :=
  match e with
  | Sum.inl _ => .error (ctx ++ ": Expected a directory")
  | Sum.inr t => .ok t

/-- Rust `mtree_lookup(..)?.map(|e| e.require_dir().context(..)).transpose()?`. -/
def lookup_subdir (t : MTree) (path : List String) (ctx : String) :
    Except String (Option MTree) :=
  match mtree_lookup t path with
  | none => .ok none
  | some e => (require_dir e ctx).map some

/-! Serialization of a tree, standing in for the content addressing of the
object store (`repo.write_mtree` computes the contents checksum from it). -/

mutual

/-- Serialized form of a tree node. -/
def serializeTree : MTree → String
  | .mk m c cs =>
    "T(" ++ (m.getD "") ++ ";" ++ (c.getD "") ++ ";" ++ serializeChildren cs ++ ")"

/-- Serialized form of a child list. -/
def serializeChildren : List (String × (String ⊕ MTree)) → String
  | [] => ""
  | (n, .inl cksum) :: rest => "F(" ++ n ++ "," ++ cksum ++ ")" ++ serializeChildren rest
  | (n, .inr sub) :: rest => "D(" ++ n ++ "," ++ serializeTree sub ++ ")" ++ serializeChildren rest

end

/-- The pair (`etc.contents_checksum()`, `etc.metadata_checksum()`) as read
after `repo.write_mtree(&etc, ..)`: persisting computes the contents
checksum from the sub-tree; the metadata checksum is the one already stored
(ostree reports an empty string when unset). -/
def write_mtree_checksums (t : MTree) : String × String :=
  ("sha-" ++ serializeTree t, t.metadataChecksum.getD "")

/-- Replace (or create) the child of the given name, as `ensure_dir`
followed by mutation of the returned handle does. -/
def MTree.setChild (t : MTree) (name : String) (e : String ⊕ MTree) : MTree :=
  match t with
  | .mk m c cs => .mk m c (insertAssoc cs name e)

/-- Rust `rootfs.remove(name, false)`. -/
def MTree.removeChild (t : MTree) (name : String) : MTree :=
  match t with
  | .mk m c cs => .mk m c (removeKeyAll cs name)

/-- Model of `postprocess_mtree`: the four-case `/etc` versus `/usr/etc` analysis of
`compose.rs`.  In the `/etc`-only case, the `etc` sub-tree is persisted to
obtain its checksums, then `rootfs.lookup(USR)?` is consulted: when `usr` is
wholly absent the lookup itself fails with the glib not-found error
(`No such file or directory: usr`, propagated by `?`); when `usr` exists but
only as a file leaf, `.1` is `None` and the `ok_or_else` produces
`Missing /usr`; when `usr` is a sub-tree, `usr/etc` is created via
`ensure_dir`, receives `etc`'s contents and metadata checksums, and `etc`
is removed from the root. -/
def postprocess_mtree (rootfs : MTree) : Except String MTree :=
  match lookup_subdir rootfs ["etc"] "/etc" with
  | .error e => .error e
  | .ok etcSubdir =>
    match lookup_subdir rootfs ["usr", "etc"] "/usr/etc" with
    | .error e => .error e
    | .ok usrEtcSubdir =>
      match etcSubdir, usrEtcSubdir with
      | none, none => .ok rootfs
      | none, some _ => .ok rootfs
      | some etc, none =>
        let checksums := write_mtree_checksums etc
        match rootfs.lookupName "usr" with
        | some (Sum.inr usr) =>
          let usretc :=
            match usr.lookupName "etc" with
            | some (Sum.inr sub) => sub
            | _ => MTree.mk none none []
          let usretc2 := MTree.mk (some checksums.2) (some checksums.1) usretc.children
          .ok ((rootfs.setChild "usr"
            (Sum.inr (usr.setChild "etc" (Sum.inr usretc2)))).removeChild "etc")
        | some (Sum.inl _) => .error "Missing /usr"
        | none => .error "No such file or directory: usr"
      | some _, some _ => .error "Found both /etc and /usr/etc"

/-! ## Layered-state metadata (`layered_packages.rs`)

`commit_layered_tree` serializes the state into commit metadata and
`load_state_from_commit` reads it back.  A Rust `String` is a wrapper
around its character data, so joining with `","` and splitting on `','`
are modelled through `List.intercalate` / `List.splitOn` on `String.toList`.
The `HashSet` has no specified iteration order, so functions that iterate
over the layered set take the enumeration (an arbitrary list of the set's
elements) as an argument. -/

/-- Rust `Vec<String>::join(",")`. -/
def joinComma (names : List String) : String :=
  String.mk (List.intercalate [','] (names.map String.toList))

/-- Rust `str::split(',')`, collected into a list. -/
def splitComma (s : String) : List String :=
  (s.toList.splitOn ',').map String.mk

/-- Model of `LayeredState`: the `HashSet` of layered packages is modelled as a
`Finset`. -/
structure LayeredState where
  base_ref : String
  layered_packages : Finset String
  deployed_commit : Option String
  deriving DecidableEq

/-- The commit metadata dictionary assembled by `commit_layered_tree`:
`version`, `pacman-ostree.base-ref`, and — only when the joined string is
non-empty — `pacman-ostree.layered` joined from the set's iteration order
`layered_iter`. -/
def commit_metadata (base_ref : String) (layered_iter : List String) :
    List (String × String) :=
  let layered_str := joinComma layered_iter
  [("version", "1.0"), ("pacman-ostree.base-ref", base_ref)] ++
    (if layered_str = "" then [] else [("pacman-ostree.layered", layered_str)])

/-- Model of `load_state_from_commit`, acting on the commit's metadata dictionary and
its checksum. -/
def load_state_from_commit (metadata : List (String × String)) (commit : String) :
    LayeredState :=
  let base_ref := (lookupA metadata "pacman-ostree.base-ref").getD "archlinux/x86_64/base"
  let layered_str := (lookupA metadata "pacman-ostree.layered").getD ""
  let layered_packages : Finset String :=
    if layered_str = "" then ∅ else (splitComma layered_str).toFinset
  { base_ref := base_ref
    layered_packages := layered_packages
    deployed_commit := some commit }

/-- Byte-wise (code-point-wise) lexicographic comparison on character
lists, the order in which `BTreeSet<String>` keeps its elements. -/
def strListLe : List Char → List Char → Bool
  | [], _ => true
  | _ :: _, [] => false
  | a :: as, b :: bs =>
    if a.toNat < b.toNat then true
    else if b.toNat < a.toNat then false
    else strListLe as bs

/-- Lexicographic comparison of strings. -/
def strLe (a b : String) : Bool := strListLe a.toList b.toList

/-- Spec-side definition for C3: the comma-separated concatenation of the
names in sorted order. -/
def sortedJoin (names : List String) : String :=
  joinComma (names.insertionSort (fun a b => strLe a b = true))

/-! ## The object store gateway model

Just enough of the ostree repo for the commit-writing paths: a ref table
and a list of commit objects.  `write_commit` appends a commit object and
returns a fresh checksum; `set_ref_immediate` updates the ref table. -/

structure CommitObj where
  parent : Option String
  subject : Option String
  body : Option String
  metadata : Option (List (String × String))
  root : String
  timestamp : Nat
  deriving DecidableEq

structure RepoState where
  refs : List (String × String)
  commits : List CommitObj
  deriving DecidableEq

/-- Rust `repo.resolve_rev(r, allow_missing)`. -/
def resolve_rev (refs : List (String × String)) (r : String) (allow_missing : Bool) :
    Except String (Option String) :=
  match lookupA refs r with
  | some c => .ok (some c)
  | none => if allow_missing then .ok none else .error ("Refspec not found: " ++ r)

/-- Rust `repo.write_commit(...)`: append the commit object, produce a checksum. -/
def write_commit (repo : RepoState) (c : CommitObj) : RepoState × String :=
  ({ repo with commits := repo.commits ++ [c] },
   "commit-" ++ toString repo.commits.length)

/-- Rust `repo.set_ref_immediate(None, name, Some(checksum), ...)`. -/
def set_ref (repo : RepoState) (name checksum : String) : RepoState :=
  { repo with refs := insertAssoc repo.refs name checksum }

/-- The final `write_commit_with_time(None, None, None, None, root, t)` call
of `generate_commit_from_rootfs`: parent, subject, body and metadata are all
`None`. -/
def generate_commit_write (repo : RepoState) (root_tree : String) (creation_time : Nat) :
    RepoState × String :=
  write_commit repo
    { parent := none, subject := none, body := none, metadata := none,
      root := root_tree, timestamp := creation_time }

/-- Model of `commit_layered_tree`: build the metadata, resolve the base ref (not
allowing a miss) and pass the result as the parent of the new commit, then
move the target ref to the new commit. -/
def commit_layered_tree (repo : RepoState) (root_tree target_ref base_ref : String)
    (layered_iter : List String) : Except String (RepoState × String) :=
  let metadata := commit_metadata base_ref layered_iter
  match resolve_rev repo.refs base_ref false with
  | .error e => .error e
  | .ok parent =>
    let commit_msg :=
      "pacman-ostree: " ++ toString layered_iter.length ++ " layered package(s)"
    let (repo1, checksum) := write_commit repo
      { parent := parent, subject := some commit_msg, body := none,
        metadata := some metadata, root := root_tree, timestamp := 0 }
    .ok (set_ref repo1 target_ref checksum, checksum)

/-! ## Package removal (`remove_packages`) -/

/-- The error raised for a package that is not currently layered. -/
def remove_err_msg (pkg : String) : String :=
  "Cannot remove '" ++ pkg ++ "': not a layered package (base packages cannot be removed)"

/-- The check-and-drop loop of `remove_packages`: requests are processed in
order against the shrinking set. -/
def remove_packages_loop : List String → Finset String → Except String (Finset String)
  | [], layered => .ok layered
  | pkg :: rest, layered =>
    if pkg ∈ layered then remove_packages_loop rest (layered.erase pkg)
    else .error (remove_err_msg pkg)

/-- Model of `remove_packages`: run the removal loop over the state loaded from the
booted commit; only on success run the rebuild, whose repository effects are
those of `commit_layered_tree` (`enum` models the iteration order of the
resulting `HashSet`).  On a loop failure the function returns before the
rebuild, leaving the repository unchanged. -/
def remove_packages (repo : RepoState) (root_tree target_ref base_ref : String)
    (enum : Finset String → List String) (layered : Finset String)
    (packages : List String) : RepoState × Except String (Finset String × String) :=
  match remove_packages_loop packages layered with
  | .error e => (repo, .error e)
  | .ok s' =>
    match commit_layered_tree repo root_tree target_ref base_ref (enum s') with
    | .error e => (repo, .error e)
    | .ok (repo', checksum) => (repo', .ok (s', checksum))

/-! ## Chunked encapsulator provenance (`container.rs`, `create_meta`)

`MappingBuilder`'s maps are modelled as association lists; the `BTreeSet`
values of `path_components` / `path_packages` are sorted lists, so their
`.first()` is the head.  `checksum_paths` is the `BTreeMap` from object
checksum to the `BTreeSet` of paths. -/

def UNPACKAGED_ID : String := "pacmanostree-unpackaged-content"

structure MappingBuilder where
  checksum_paths : List (String × List String)
  path_components : List (String × List String)
  path_packages : List (String × List String)
  unpackaged_id : String

/-- The accumulator of `create_meta`: the checksum-to-package map
(`package_content`) and the per-component (content-id, path, checksum)
entries (`component_content_map`, kept flat in insertion order). -/
abbrev MetaAcc := List (String × String) × List (String × String × String)

/-- The body of `create_meta`'s inner loop: component first (push to the
component map), else package (insert into the checksum map), else the
unpackaged sentinel. -/
def create_meta_step (b : MappingBuilder) (cs : String) (acc : MetaAcc) (p : String) :
    MetaAcc :=
  match lookupA b.path_components p with
  | some component_ids =>
    match component_ids.head? with
    | some content_id => (acc.1, acc.2 ++ [(content_id, p, cs)])
    | none => acc
  | none =>
    match lookupA b.path_packages p with
    | some package_ids =>
      match package_ids.head? with
      | some content_id => (insertAssoc acc.1 cs content_id, acc.2)
      | none => acc
    | none => (insertAssoc acc.1 cs b.unpackaged_id, acc.2)

/-- Loop `for path in paths { ... }`. -/
def create_meta_inner (b : MappingBuilder) (cs : String) : MetaAcc → List String → MetaAcc
  | acc, [] => acc
  | acc, p :: ps => create_meta_inner b cs (create_meta_step b cs acc p) ps

/-- Loop `for (checksum, paths) in &self.checksum_paths { ... }`. -/
def create_meta_go (b : MappingBuilder) : MetaAcc → List (String × List String) → MetaAcc
  | acc, [] => acc
  | acc, (cs, paths) :: rest => create_meta_go b (create_meta_inner b cs acc paths) rest

/-- Model of `MappingBuilder::create_meta`. -/
def create_meta (b : MappingBuilder) : MetaAcc :=
  create_meta_go b ([], []) b.checksum_paths

/-- A path is component-owned when `path_components` has an entry for it. -/
def componentOwned (b : MappingBuilder) (p : String) : Bool :=
  (lookupA b.path_components p).isSome

/-- Spec-side priority rule: the first component id mapped to the path if
any, otherwise the first package id mapped to the path if any, otherwise the
unpackaged sentinel. -/
def provenanceSpec (b : MappingBuilder) (p : String) : String :=
  match (lookupA b.path_components p).bind List.head? with
  | some cid => cid
  | none =>
    match (lookupA b.path_packages p).bind List.head? with
    | some pid => pid
    | none => b.unpackaged_id

/-- The contents of the package map are always provenances of non-component
paths of their checksum. -/
def GoodPkg (b : MappingBuilder) (cs v : String) : Prop :=
  ∃ paths p, (cs, paths) ∈ b.checksum_paths ∧ p ∈ paths ∧
    componentOwned b p = false ∧ v = provenanceSpec b p

/-- The entries of the component map are always provenances of
component-owned paths of their checksum. -/
def GoodComp (b : MappingBuilder) (x : String × String × String) : Prop :=
  ∃ paths, (x.2.2, paths) ∈ b.checksum_paths ∧ x.2.1 ∈ paths ∧
    componentOwned b x.2.1 = true ∧ x.1 = provenanceSpec b x.2.1


/-! ## Top-level entry walk of `generate_commit_from_rootfs` (C7)

The loop over the root's `read_dir` entries: `sysroot` and other directories
build sub-trees, symlinks read their raw target bytes and call
`to_str().unwrap()` on them, sockets/FIFOs/device nodes are skipped with a
warning, and any other entry aborts with the unsupported-special-file
error.  `to_str` is modelled by a UTF-8 validity check on the byte list. -/

/-- A UTF-8 continuation byte. -/
def isContByte (b : Nat) : Bool := 128 ≤ b && b ≤ 191

/-- Validity of a byte sequence as UTF-8 (the check behind
`Path::to_str`). -/
def validUtf8 : List Nat → Bool
  | [] => true
  | b :: rest =>
    if b ≤ 127 then validUtf8 rest
    else if 194 ≤ b && b ≤ 223 then
      match rest with
      | c1 :: r => isContByte c1 && validUtf8 r
      | [] => false
    else if b = 224 then
      match rest with
      | c1 :: c2 :: r => (160 ≤ c1 && c1 ≤ 191) && isContByte c2 && validUtf8 r
      | _ => false
    else if 225 ≤ b && b ≤ 236 then
      match rest with
      | c1 :: c2 :: r => isContByte c1 && isContByte c2 && validUtf8 r
      | _ => false
    else if b = 237 then
      match rest with
      | c1 :: c2 :: r => (128 ≤ c1 && c1 ≤ 159) && isContByte c2 && validUtf8 r
      | _ => false
    else if 238 ≤ b && b ≤ 239 then
      match rest with
      | c1 :: c2 :: r => isContByte c1 && isContByte c2 && validUtf8 r
      | _ => false
    else if b = 240 then
      match rest with
      | c1 :: c2 :: c3 :: r =>
        (144 ≤ c1 && c1 ≤ 191) && isContByte c2 && isContByte c3 && validUtf8 r
      | _ => false
    else if 241 ≤ b && b ≤ 243 then
      match rest with
      | c1 :: c2 :: c3 :: r =>
        isContByte c1 && isContByte c2 && isContByte c3 && validUtf8 r
      | _ => false
    else if b = 244 then
      match rest with
      | c1 :: c2 :: c3 :: r =>
        (128 ≤ c1 && c1 ≤ 143) && isContByte c2 && isContByte c3 && validUtf8 r
      | _ => false
    else false

/-- Rust `Path::to_str`: the same bytes viewed as a string when they are valid
UTF-8, absent otherwise. -/
def path_to_str (bytes : List Nat) : Option (List Nat) :=
  if validUtf8 bytes then some bytes else none

/-- A top-level entry of the staged rootfs, by file type, with the symlink
target kept as raw bytes. -/
inductive TopEntry where
  | dir (name : String)
  | symlink (name : String) (target : List Nat)
  | socket (name : String)
  | fifo (name : String)
  | device (name : String)
  | regular (name : String)

/-- The error kinds of the specification's error-handling design. -/
inductive ErrKind where
  | io
  | encoding
  | invariant_violation
  | subprocess_failed
  deriving DecidableEq

/-- Outcome of a composition: a published commit, an error value propagated
with `?` (transaction dropped, nothing published), or a Rust panic from an
`unwrap` (unwinding also drops the transaction guard, so nothing is
published either). -/
inductive ComposeOutcome where
  | ok (commit : String)
  | error (kind : ErrKind) (msg : String)
  | panicked (msg : String)
  deriving DecidableEq

/-- The top-level entry loop of `generate_commit_from_rootfs`, followed by
the commit write on success. -/
def generate_commit_toplevel (entries : List TopEntry) : ComposeOutcome :=
  go entries
where
  go : List TopEntry → ComposeOutcome
  | [] => .ok "commit"
  | e :: rest =>
    match e with
    | .dir _ => go rest
    | .symlink _ target =>
      match path_to_str target with
      | some _ => go rest
      | none => .panicked "called Option::unwrap() on a None value"
    | .socket _ => go rest
    | .fifo _ => go rest
    | .device _ => go rest
    | .regular name =>
      .error .invariant_violation ("Unsupported special file " ++ name ++ " at toplevel")

/-- Whether an outcome published a commit. -/
def publishedCommit : ComposeOutcome → Bool
  | .ok _ => true
  | _ => false

/-- Whether an outcome is an error of the given kind. -/
def isErrorOfKind (o : ComposeOutcome) (k : ErrKind) : Bool :=
  match o with
  | .error k' _ => k' = k
  | _ => false

/-! ## Rootfs normalization (`install_filesystem`, C8)

The staging directory is a finite map from slash-split paths to nodes
(directory, regular file carrying the `user.ostreemeta` flag, or symlink).
The std filesystem operations used by the normalizer are modelled on this
map: `exists()` follows symlinks, `remove_dir_all` removes a symlink itself,
`remove_file` refuses directories, and `symlink` fails when the link name
already exists (even as a dangling symlink). -/

abbrev FPath := List String

inductive FsNode where
  | dir
  | file (usermeta : Bool)
  | symlink (target : FPath)
  deriving DecidableEq

structure FsState where
  entries : List (FPath × FsNode)
  deriving DecidableEq

/-- Association-list lookup over an arbitrary decidable key type (the
path-keyed sibling of `lookupA`). -/
def lookupG {κ α : Type} [DecidableEq κ] (m : List (κ × α)) (k : κ) : Option α :=
  (m.find? (fun e => e.1 = k)).map (fun e => e.2)

/-- Removal of all bindings of one key, over an arbitrary key type. -/
def removeKeyG {κ α : Type} [DecidableEq κ] : List (κ × α) → κ → List (κ × α)
  | [], _ => []
  | (k', v') :: rest, k =>
    if k' = k then removeKeyG rest k else (k', v') :: removeKeyG rest k

/-- Lookup of an exact path (no symlink following), i.e. `lstat`. -/
def lookupFs (fs : FsState) (p : FPath) : Option FsNode :=
  lookupG fs.entries p

/-- Raw existence of the path entry itself (`symlink_metadata().is_ok()`). -/
def lexistsFs (fs : FsState) (p : FPath) : Bool := (lookupFs fs p).isSome

/-- Resolve a path, following symlinks with bounded fuel (the kernel's
ELOOP bound). -/
def resolveNode (fs : FsState) : Nat → FPath → Option FsNode
  | 0, _ => none
  | fuel + 1, p =>
    match lookupFs fs p with
    | some (FsNode.symlink t) => resolveNode fs fuel t
    | other => other

/-- Rust `Path::exists()` (follows symlinks). -/
def pathExistsFs (fs : FsState) (p : FPath) : Bool := (resolveNode fs 40 p).isSome

/-- Rust `Path::is_dir()` (follows symlinks). -/
def isDirFs (fs : FsState) (p : FPath) : Bool :=
  resolveNode fs 40 p = some FsNode.dir

/-- Append a new entry (callers check absence first). -/
def insertFsEntry (fs : FsState) (p : FPath) (n : FsNode) : FsState :=
  { entries := fs.entries ++ [(p, n)] }

/-- Remove the bindings of one exact path. -/
def removeFsEntry (fs : FsState) (p : FPath) : FsState :=
  { entries := removeKeyG fs.entries p }

/-- Rust `fs::remove_dir_all`: a symlink is removed itself; a directory is
removed with all entries below it; a plain file is refused. -/
def remove_dir_all (fs : FsState) (p : FPath) : Except String FsState :=
  match lookupFs fs p with
  | none => .error "No such file or directory"
  | some (.symlink _) => .ok (removeFsEntry fs p)
  | some (.file _) => .error "Not a directory"
  | some .dir =>
    .ok { entries := fs.entries.filter (fun e => ¬ p.isPrefixOf e.1) }

/-- Rust `fs::remove_file`. -/
def remove_file (fs : FsState) (p : FPath) : Except String FsState :=
  match lookupFs fs p with
  | none => .error "No such file or directory"
  | some .dir => .error "Is a directory"
  | some _ => .ok (removeFsEntry fs p)

/-- Rust `unix_fs::symlink(target, link)`: fails with `File exists` when the
link name is already taken (even by a dangling symlink), and needs the
parent directory to exist. -/
def symlink_create (fs : FsState) (target link : FPath) : Except String FsState :=
  if lexistsFs fs link then .error "File exists"
  else if link.dropLast = [] ∨ isDirFs fs link.dropLast then
    .ok (insertFsEntry fs link (.symlink target))
  else .error "No such file or directory"

/-- The in-order proper prefixes of a path, shortest first. -/
def prefixesOf : FPath → List FPath
  | [] => []
  | s :: rest => [s] :: (prefixesOf rest).map (fun q => s :: q)

/-- Rust `fs::create_dir_all`: create every missing prefix as a directory;
an existing non-directory component is an error. -/
def create_dir_all (fs : FsState) (p : FPath) : Except String FsState :=
  go fs (prefixesOf p)
where
  go : FsState → List FPath → Except String FsState
  | fs, [] => .ok fs
  | fs, pre :: rest =>
    if isDirFs fs pre then go fs rest
    else if lexistsFs fs pre then .error "File exists"
    else go (insertFsEntry fs pre .dir) rest

/-- Table `dirs_to_create` of `install_filesystem`. -/
def requiredDirs : List FPath :=
  [["boot"], ["sysroot"], ["var", "home"], ["sysroot", "ostree"], ["var", "roothome"]]

/-- Table `dirs_to_remove` of `install_filesystem`. -/
def forbiddenDirs : List FPath :=
  [["var", "log"], ["home"], ["root"], ["usr", "local"], ["srv"]]

/-- The `(target, link_name)` compatibility-symlink table. -/
def compatSymlinks : List (FPath × FPath) :=
  [(["var", "home"], ["home"]),
   (["var", "roothome"], ["root"]),
   (["var", "usrlocal"], ["usr", "local"]),
   (["var", "srv"], ["srv"]),
   (["sysroot", "ostree"], ["ostree"])]

/-- The required-directory creation loop. -/
def createRequiredDirs (fs : FsState) : Except String FsState :=
  go fs requiredDirs
where
  go : FsState → List FPath → Except String FsState
  | fs, [] => .ok fs
  | fs, d :: rest =>
    match create_dir_all fs d with
    | .error e => .error e
    | .ok fs' => go fs' rest

/-- The forbidden-directory removal loop (`if path.exists() then
remove_dir_all`). -/
def removeForbidden (fs : FsState) : Except String FsState :=
  go fs forbiddenDirs
where
  go : FsState → List FPath → Except String FsState
  | fs, [] => .ok fs
  | fs, d :: rest =>
    if pathExistsFs fs d then
      match remove_dir_all fs d with
      | .error e => .error e
      | .ok fs' => go fs' rest
    else go fs rest

/-- The compatibility-symlink rewriting loop (`if link_path.exists() then
remove_file; symlink(target, link)`). -/
def makeCompatSymlinks (fs : FsState) : Except String FsState :=
  go fs compatSymlinks
where
  go : FsState → List (FPath × FPath) → Except String FsState
  | fs, [] => .ok fs
  | fs, (target, link) :: rest =>
    match (if pathExistsFs fs link then remove_file fs link else .ok fs) with
    | .error e => .error e
    | .ok fs1 =>
      match symlink_create fs1 target link with
      | .error e => .error e
      | .ok fs2 => go fs2 rest

/-- Model of `strip_usermeta`: the tree walk clears the `user.ostreemeta` xattr of
every non-directory entry. -/
def strip_usermeta (fs : FsState) : FsState :=
  { entries := fs.entries.map (fun e =>
      match e.2 with
      | .file _ => (e.1, FsNode.file false)
      | _ => e) }

/-- The normalization sequence of `install_filesystem` after the external
bootstrap call: required-directory creation, forbidden-directory removal,
compatibility-symlink rewriting, `user.ostreemeta` stripping. -/
def normalize_rootfs (fs : FsState) : Except String FsState :=
  match createRequiredDirs fs with
  | .error e => .error e
  | .ok fs1 =>
    match removeForbidden fs1 with
    | .error e => .error e
    | .ok fs2 =>
      match makeCompatSymlinks fs2 with
      | .error e => .error e
      | .ok fs3 => .ok (strip_usermeta fs3)

/-- Success test on the normalizer result. -/
def normalizeOk (r : Except String FsState) : Bool :=
  match r with
  | .ok _ => true
  | .error _ => false

end PacmanOstree

namespace PacmanOstree

/-! ### Association-map and tree-lookup lemmas -/

theorem lookupA_nil {α : Type} (k : String) : lookupA ([] : List (String × α)) k = none := rfl

theorem lookupA_cons {α : Type} (k k' : String) (v : α) (m : List (String × α)) :
    lookupA ((k', v) :: m) k = if k' = k then some v else lookupA m k := by
  by_cases h : k' = k <;> simp [lookupA, List.find?, h]

/-- If a lookup succeeds, the binding is a member of the list. -/
theorem lookupA_mem {α : Type} {m : List (String × α)} {k : String} {v : α}
    (h : lookupA m k = some v) : (k, v) ∈ m := by
  induction m with
  | nil => simp [lookupA] at h
  | cons e rest ih =>
    rcases e with ⟨k', v'⟩
    rw [lookupA_cons] at h
    by_cases hk : k' = k
    · subst hk
      simp at h
      simp [h]
    · simp [hk] at h
      exact List.mem_cons_of_mem _ (ih h)

theorem lookupA_insertAssoc {α : Type} (m : List (String × α)) (k k' : String) (v : α) :
    lookupA (insertAssoc m k v) k' = if k = k' then some v else lookupA m k' := by
  induction m with
  | nil =>
    by_cases h : k = k' <;> simp [insertAssoc, lookupA_cons, lookupA_nil, h]
  | cons e rest ih =>
    rcases e with ⟨k₀, v₀⟩
    by_cases h0 : k₀ = k
    · subst h0
      by_cases h : k₀ = k' <;> simp [insertAssoc, lookupA_cons, h]
    · by_cases h : k₀ = k'
      · subst h
        have hkk : ¬ k = k₀ := fun hc => h0 hc.symm
        simp [insertAssoc, h0, lookupA_cons, hkk]
      · simp [insertAssoc, h0, lookupA_cons, h, ih]

theorem lookupA_removeKeyAll {α : Type} (m : List (String × α)) (n k : String) :
    lookupA (removeKeyAll m n) k = if k = n then none else lookupA m k := by
  induction m with
  | nil => by_cases h : k = n <;> simp [removeKeyAll, lookupA_nil, h]
  | cons e rest ih =>
    rcases e with ⟨k₀, v₀⟩
    by_cases h0 : k₀ = n
    · subst h0
      by_cases h : k = k₀
      · subst h
        simp [removeKeyAll, ih]
      · have h2 : ¬ k₀ = k := fun hc => h (hc.symm)
        simp [removeKeyAll, lookupA_cons, h, h2, ih]
    · by_cases h : k₀ = k
      · subst h
        simp [removeKeyAll, h0, lookupA_cons]
      · simp [removeKeyAll, h0, lookupA_cons, h, ih]

theorem lookupName_setChild (t : MTree) (n k : String) (e : String ⊕ MTree) :
    (t.setChild n e).lookupName k = if n = k then some e else t.lookupName k := by
  cases t
  simp [MTree.setChild, MTree.lookupName, MTree.children, lookupA_insertAssoc]

theorem lookupName_removeChild (t : MTree) (n k : String) :
    (t.removeChild n).lookupName k = if k = n then none else t.lookupName k := by
  cases t
  simp [MTree.removeChild, MTree.lookupName, MTree.children, lookupA_removeKeyAll]

theorem mk_toList (s : String) : String.mk s.toList = s := by
  cases s
  rfl


/-- C9: the filter keeps exactly the names whose base lookup fails, so the
subsequent `filter_map` over base lookups produces nothing. -/
theorem calculate_size_delta_eq_zero (base : List (String × PacmanPackageMeta))
    (layered : List String) :
    calculate_size_delta_for_layered base layered = 0 := by
  unfold calculate_size_delta_for_layered
  have h : ((layered.filter (fun pkg => ¬ (lookupA base pkg).isSome)).filterMap
      (fun pkg => (lookupA base pkg).map (fun p => p.size))) = [] := by
    rw [List.filterMap_eq_nil_iff]
    intro a ha
    rw [List.mem_filter] at ha
    rcases ha with ⟨-, hnone⟩
    rcases hopt : lookupA base a with _ | v
    · simp
    · simp [hopt] at hnone
  rw [h]
  simp

/-- C9: `calculate_size_delta_for_layered` first keeps only package names
absent from the base map and then sums sizes obtained by looking those same
names up in the base map, so it returns 0 for every base map and layered set;
consequently the `size_delta` field of every `LayeringResult` built by
`rebuild_with_layers` (hence of `install_packages`, `install_packages_fresh`
and `remove_packages`) equals 0. -/
theorem c9_size_delta_always_zero (base : List (String × PacmanPackageMeta))
    (layered : List String) (new_commit : String) (deployment_index : Option Nat) :
    calculate_size_delta_for_layered base layered = 0 ∧
    (rebuild_result base layered new_commit deployment_index).size_delta = 0 := by
  refine ⟨calculate_size_delta_eq_zero base layered, ?_⟩
  show calculate_size_delta_for_layered base layered = 0
  exact calculate_size_delta_eq_zero base layered

/-! ### Layered-state serialization lemmas -/

theorem splitComma_joinComma (names : List String)
    (hcomma : ∀ s ∈ names, ',' ∉ s.toList) (hne : names ≠ []) :
    splitComma (joinComma names) = names := by
  unfold splitComma joinComma
  have hx : ∀ l ∈ names.map String.toList, ',' ∉ l := by
    intro l hl
    rcases List.mem_map.mp hl with ⟨s, hs, rfl⟩
    exact hcomma s hs
  have hls : names.map String.toList ≠ [] := by simpa using hne
  have hdata : (String.mk (List.intercalate [','] (names.map String.toList))).toList
      = List.intercalate [','] (names.map String.toList) := rfl
  rw [hdata, List.splitOn_intercalate (names.map String.toList) ',' hx hls, List.map_map]
  have : (String.mk ∘ String.toList) = id := by
    funext s
    exact mk_toList s
  rw [this, List.map_id]

theorem joinComma_ne_empty (names : List String)
    (hcomma : ∀ s ∈ names, ',' ∉ s.toList) (hne : names ≠ [])
    (hns : ∀ s ∈ names, s ≠ "") :
    joinComma names ≠ "" := by
  intro h
  have h2 : splitComma (joinComma names) = names := splitComma_joinComma names hcomma hne
  rw [h] at h2
  have h3 : splitComma "" = [""] := rfl
  rw [h3] at h2
  have : "" ∈ names := by
    rw [← h2]
    simp
  exact hns "" this rfl

theorem commit_metadata_base_ref (b : String) (en : List String) :
    lookupA (commit_metadata b en) "pacman-ostree.base-ref" = some b := by
  unfold commit_metadata
  by_cases h : joinComma en = "" <;> simp [h, lookupA_cons]

theorem commit_metadata_layered (b : String) (en : List String) :
    lookupA (commit_metadata b en) "pacman-ostree.layered" =
      if joinComma en = "" then none else some (joinComma en) := by
  unfold commit_metadata
  by_cases h : joinComma en = "" <;> simp [h, lookupA_cons, lookupA_nil]

/-- C2 (amended): writing a layered state and loading it back is the
identity on the base ref and the layered set, provided the package names
contain no commas and are non-empty; a missing base-ref key loads as the
default `archlinux/x86_64/base`, and an absent or empty layered key loads
as the empty set. -/
theorem c2_layered_state_roundtrip (b commit_checksum : String) (names : List String)
    (hcomma : ∀ s ∈ names, ',' ∉ s.toList) (hns : ∀ s ∈ names, s ≠ "") :
    load_state_from_commit (commit_metadata b names) commit_checksum =
      { base_ref := b, layered_packages := names.toFinset,
        deployed_commit := some commit_checksum } ∧
    (∀ md c, lookupA md "pacman-ostree.base-ref" = none →
      (load_state_from_commit md c).base_ref = "archlinux/x86_64/base") ∧
    (∀ md c, lookupA md "pacman-ostree.layered" = none →
      (load_state_from_commit md c).layered_packages = ∅) ∧
    (∀ md c, lookupA md "pacman-ostree.layered" = some "" →
      (load_state_from_commit md c).layered_packages = ∅) := by
  refine ⟨?_, ?_, ?_, ?_⟩
  · unfold load_state_from_commit
    rw [commit_metadata_base_ref, commit_metadata_layered]
    rcases eq_or_ne names [] with rfl | hne
    · have h0 : joinComma [] = "" := rfl
      simp [h0]
    · have hj := joinComma_ne_empty names hcomma hne hns
      simp only [if_neg hj, Option.getD_some]
      rw [splitComma_joinComma names hcomma hne]
  · intro md c h
    simp [load_state_from_commit, h]
  · intro md c h
    simp [load_state_from_commit, h]
  · intro md c h
    simp [load_state_from_commit, h]

/-- C2 witness: the round trip applied to the concrete state
(base `archlinux/x86_64/base`, layered `{vim}`). -/
theorem c2_layered_state_roundtrip_witness :
    load_state_from_commit (commit_metadata "archlinux/x86_64/base" ["vim"]) "deadbeef" =
      { base_ref := "archlinux/x86_64/base", layered_packages := {"vim"},
        deployed_commit := some "deadbeef" } := by
  have h := c2_layered_state_roundtrip "archlinux/x86_64/base" "deadbeef" ["vim"]
    (by decide) (by decide)
  simpa using h.1

/-- C2 counterexample: the layered set containing only the empty string
(which contains no comma) does not survive the round trip — it serializes
to the empty string, whose key is omitted, and loads back as the empty set. -/
theorem c2_empty_name_not_roundtripped :
    (load_state_from_commit (commit_metadata "b" [""]) "c").layered_packages = ∅ ∧
    (',' ∉ ("" : String).toList) ∧ (∅ : Finset String) ≠ ({""} : Finset String) := by
  refine ⟨rfl, by decide, by decide⟩

/-- C3 (amended): the metadata value under `pacman-ostree.layered` is the
comma-separated concatenation of the layered names in the `HashSet`'s
(unspecified, not sorted) iteration order, and the key is omitted exactly
when that joined string is empty — in particular when the set is empty. -/
theorem c3_layered_metadata_join_of_iteration (b : String) (en : List String) :
    lookupA (commit_metadata b en) "pacman-ostree.layered" =
      if joinComma en = "" then none else some (joinComma en) :=
  commit_metadata_layered b en

/-- C3 counterexample: with iteration order `["b", "a"]` the stored value is
`"b,a"`, while the sorted comma-separated concatenation of the same set
`{a, b}` is `"a,b"`. -/
theorem c3_not_sorted_counterexample :
    lookupA (commit_metadata "archlinux/x86_64/base" ["b", "a"]) "pacman-ostree.layered"
        = some "b,a" ∧
    sortedJoin ["b", "a"] = "a,b" ∧
    ("b,a" : String) ≠ "a,b" ∧
    (["b", "a"].toFinset : Finset String) = (["a", "b"].toFinset : Finset String) := by
  refine ⟨rfl, by decide, by decide, by decide⟩

/-! ### The `/etc` to `/usr/etc` relocation (C1) -/

/-- C1 (amended): `postprocess_mtree` behaves by cases on the presence of
`etc` and `usr/etc` sub-trees: with neither, or with only `usr/etc`, it
succeeds without changing the tree; with only `etc` and `usr` a sub-tree,
it persists `etc` to compute its checksums, copies the contents and
metadata checksums into a fresh `usr/etc` sub-tree and removes `etc`; with
only `etc` and `usr` wholly absent, the `usr` lookup's glib not-found error
propagates (`No such file or directory: usr`); with only `etc` and `usr`
present as a file leaf, it fails with `Missing /usr`; with both it fails
with `Found both /etc and /usr/etc`.  Every tree it returns successfully
has no `/etc` entry, so a committed tree contains at most one of `/etc`
and `/usr/etc`. -/
theorem c1_postprocess_mtree_cases (t : MTree) :
    (mtree_lookup t ["etc"] = none → mtree_lookup t ["usr", "etc"] = none →
      postprocess_mtree t = .ok t) ∧
    (∀ d, mtree_lookup t ["etc"] = none →
      mtree_lookup t ["usr", "etc"] = some (Sum.inr d) →
      postprocess_mtree t = .ok t) ∧
    (∀ e usr, mtree_lookup t ["etc"] = some (Sum.inr e) →
      mtree_lookup t ["usr", "etc"] = none →
      t.lookupName "usr" = some (Sum.inr usr) →
      ∃ r, postprocess_mtree t = .ok r ∧
        r.lookupName "etc" = none ∧
        ∃ u, mtree_lookup r ["usr", "etc"] = some (Sum.inr u) ∧
          u.contentsChecksum = some (write_mtree_checksums e).1 ∧
          u.metadataChecksum = some (write_mtree_checksums e).2) ∧
    (∀ e, mtree_lookup t ["etc"] = some (Sum.inr e) →
      mtree_lookup t ["usr", "etc"] = none →
      t.lookupName "usr" = none →
      postprocess_mtree t = .error "No such file or directory: usr") ∧
    (∀ e c, mtree_lookup t ["etc"] = some (Sum.inr e) →
      mtree_lookup t ["usr", "etc"] = none →
      t.lookupName "usr" = some (Sum.inl c) →
      postprocess_mtree t = .error "Missing /usr") ∧
    (∀ e d, mtree_lookup t ["etc"] = some (Sum.inr e) →
      mtree_lookup t ["usr", "etc"] = some (Sum.inr d) →
      postprocess_mtree t = .error "Found both /etc and /usr/etc") ∧
    (∀ r, postprocess_mtree t = .ok r → r.lookupName "etc" = none) := by
  refine ⟨?_, ?_, ?_, ?_, ?_, ?_, ?_⟩
  · intro h1 h2
    simp [postprocess_mtree, lookup_subdir, Except.map, h1, h2]
  · intro d h1 h2
    simp [postprocess_mtree, lookup_subdir, Except.map, h1, h2, require_dir]
  · intro e usr h1 h2 h3
    have h4 : usr.lookupName "etc" = none := by
      simpa [mtree_lookup, h3] using h2
    refine ⟨(t.setChild "usr" (Sum.inr (usr.setChild "etc" (Sum.inr
        (MTree.mk (some (write_mtree_checksums e).2)
          (some (write_mtree_checksums e).1) []))))).removeChild "etc", ?_, ?_, ?_⟩
    · simp [postprocess_mtree, lookup_subdir, Except.map, h1, h2, require_dir, h3, h4,
        MTree.children]
    · rw [lookupName_removeChild]
      simp
    · refine ⟨MTree.mk (some (write_mtree_checksums e).2)
        (some (write_mtree_checksums e).1) [], ?_, rfl, rfl⟩
      have hu : ((t.setChild "usr" (Sum.inr (usr.setChild "etc" (Sum.inr
          (MTree.mk (some (write_mtree_checksums e).2)
            (some (write_mtree_checksums e).1) []))))).removeChild "etc").lookupName "usr" =
          some (Sum.inr (usr.setChild "etc" (Sum.inr
          (MTree.mk (some (write_mtree_checksums e).2)
            (some (write_mtree_checksums e).1) [])))) := by
        rw [lookupName_removeChild]
        simp [lookupName_setChild]
      simp [mtree_lookup, hu, lookupName_setChild]
  · intro e h1 h2 h3
    simp [postprocess_mtree, lookup_subdir, Except.map, h1, h2, require_dir, h3]
  · intro e c h1 h2 h3
    simp [postprocess_mtree, lookup_subdir, Except.map, h1, h2, require_dir, h3]
  · intro e d h1 h2
    simp [postprocess_mtree, lookup_subdir, Except.map, h1, h2, require_dir]
  · intro r hok
    rcases he : mtree_lookup t ["etc"] with _ | e
    · rcases hu : mtree_lookup t ["usr", "etc"] with _ | u
      · simp [postprocess_mtree, lookup_subdir, Except.map, he, hu] at hok
        subst hok
        exact he
      · rcases u with c | u
        · simp [postprocess_mtree, lookup_subdir, Except.map, he, hu, require_dir] at hok
        · simp [postprocess_mtree, lookup_subdir, Except.map, he, hu, require_dir] at hok
          subst hok
          exact he
    · rcases e with c | e
      · simp [postprocess_mtree, lookup_subdir, Except.map, he, require_dir] at hok
      · rcases hu : mtree_lookup t ["usr", "etc"] with _ | u
        · rcases husr : t.lookupName "usr" with _ | e'
          · simp [postprocess_mtree, lookup_subdir, Except.map, he, hu, require_dir, husr] at hok
          · rcases e' with c | usr
            · simp [postprocess_mtree, lookup_subdir, Except.map, he, hu, require_dir, husr] at hok
            · simp [postprocess_mtree, lookup_subdir, Except.map, he, hu, require_dir, husr] at hok
              rw [← hok, lookupName_removeChild]
              simp
        · rcases u with c | u
          · simp [postprocess_mtree, lookup_subdir, Except.map, he, hu, require_dir] at hok
          · simp [postprocess_mtree, lookup_subdir, Except.map, he, hu, require_dir] at hok

/-- C1 witness: the both-present case on a concrete staging tree fails with
the invariant-violation text. -/
theorem c1_postprocess_mtree_cases_witness :
    postprocess_mtree (MTree.mk none none
      [("etc", Sum.inr (MTree.mk none none [])),
       ("usr", Sum.inr (MTree.mk none none
         [("etc", Sum.inr (MTree.mk none none []))]))]) =
      .error "Found both /etc and /usr/etc" := by
  have h := c1_postprocess_mtree_cases (MTree.mk none none
      [("etc", Sum.inr (MTree.mk none none [])),
       ("usr", Sum.inr (MTree.mk none none
         [("etc", Sum.inr (MTree.mk none none []))]))])
  exact h.2.2.2.2.2.1 (MTree.mk none none []) (MTree.mk none none []) rfl rfl

/-- C1 counterexample: a tree whose only entry is an `etc` sub-tree (no
`usr` at all).  The claim says the relocation then succeeds, creating
`usr/etc` if needed; the code instead fails — `rootfs.lookup(USR)?`
propagates the glib not-found error, so the composition aborts rather than
creating `usr`. -/
theorem c1_etc_only_without_usr_fails :
    postprocess_mtree (MTree.mk none none
      [("etc", Sum.inr (MTree.mk none none []))]) =
      .error "No such file or directory: usr" := rfl

/-! ### Package-removal lemmas (C4) -/

theorem remove_loop_error_of_missing (packages : List String) :
    ∀ (s layered : Finset String), s ⊆ layered → (∃ p ∈ packages, p ∉ layered) →
      ∃ msg, remove_packages_loop packages s = .error msg := by
  induction packages with
  | nil =>
    intro s layered _ h
    rcases h with ⟨p, hp, _⟩
    simp at hp
  | cons pkg rest ih =>
    intro s layered hsub h
    by_cases hmem : pkg ∈ s
    · rcases h with ⟨p, hp, hnot⟩
      rcases List.mem_cons.mp hp with rfl | hp'
      · exact absurd (hsub hmem) hnot
      · have herase : s.erase pkg ⊆ layered :=
          fun x hx => hsub (Finset.mem_of_mem_erase hx)
        rcases ih (s.erase pkg) layered herase ⟨p, hp', hnot⟩ with ⟨msg, hmsg⟩
        exact ⟨msg, by simp [remove_packages_loop, hmem, hmsg]⟩
    · exact ⟨remove_err_msg pkg, by simp [remove_packages_loop, hmem]⟩

theorem remove_loop_error_msg (packages : List String) :
    ∀ (s : Finset String) (msg : String), remove_packages_loop packages s = .error msg →
      ∃ p ∈ packages, msg = remove_err_msg p := by
  induction packages with
  | nil =>
    intro s msg h
    simp [remove_packages_loop] at h
  | cons pkg rest ih =>
    intro s msg h
    by_cases hmem : pkg ∈ s
    · simp only [remove_packages_loop, if_pos hmem] at h
      rcases ih (s.erase pkg) msg h with ⟨p, hp, rfl⟩
      exact ⟨p, List.mem_cons_of_mem _ hp, rfl⟩
    · simp only [remove_packages_loop, if_neg hmem, Except.error.injEq] at h
      exact ⟨pkg, List.mem_cons_self _ _, h.symm⟩

theorem remove_loop_ok_of_all_layered (packages : List String) :
    ∀ (s : Finset String), packages.Nodup → (∀ p ∈ packages, p ∈ s) →
      remove_packages_loop packages s = .ok (s \ packages.toFinset) := by
  induction packages with
  | nil =>
    intro s _ _
    simp [remove_packages_loop]
  | cons pkg rest ih =>
    intro s hnodup hmem
    have hpkg : pkg ∈ s := hmem pkg (List.mem_cons_self _ _)
    have hrest : ∀ p ∈ rest, p ∈ s.erase pkg := by
      intro p hp
      refine Finset.mem_erase.mpr ⟨?_, hmem p (List.mem_cons_of_mem _ hp)⟩
      intro hcontra
      exact (List.nodup_cons.mp hnodup).1 (hcontra ▸ hp)
    have step := ih (s.erase pkg) (List.nodup_cons.mp hnodup).2 hrest
    have hset : s.erase pkg \ rest.toFinset = s \ (pkg :: rest).toFinset := by
      rw [Finset.erase_eq, sdiff_sdiff_left, List.toFinset_cons, Finset.insert_eq]
      rfl
    simp [remove_packages_loop, hpkg, step, hset]

/-- C4 (amended): `remove_packages` processes the requests sequentially
against the shrinking layered set.  Whenever some requested package is not
in the layered set it fails before any rebuild — the error names a requested
package with the text "not a layered package (base packages cannot be
removed)", no commit is written and no ref is moved, so the repository value
is returned unchanged.  When the requested packages are pairwise distinct
and each is in the layered set, all of them are dropped and the rebuild runs:
a new commit is appended and the target ref is moved onto it. -/
theorem c4_remove_packages_spec (repo : RepoState)
    (root_tree target_ref base_ref : String) (enum : Finset String → List String)
    (layered : Finset String) (packages : List String) :
    ((∃ p ∈ packages, p ∉ layered) →
      ∃ msg, remove_packages_loop packages layered = .error msg ∧
        remove_packages repo root_tree target_ref base_ref enum layered packages =
          (repo, .error msg)) ∧
    (∀ msg, remove_packages_loop packages layered = .error msg →
      ∃ p ∈ packages, msg = remove_err_msg p) ∧
    (packages.Nodup → (∀ p ∈ packages, p ∈ layered) → ∀ c,
      lookupA repo.refs base_ref = some c →
      ∃ repo' checksum,
        remove_packages repo root_tree target_ref base_ref enum layered packages =
          (repo', .ok (layered \ packages.toFinset, checksum)) ∧
        repo'.commits.length = repo.commits.length + 1 ∧
        lookupA repo'.refs target_ref = some checksum) := by
  refine ⟨?_, remove_loop_error_msg packages layered, ?_⟩
  · intro h
    rcases remove_loop_error_of_missing packages layered layered (fun _ hx => hx) h with
      ⟨msg, hmsg⟩
    exact ⟨msg, hmsg, by simp [remove_packages, hmsg]⟩
  · intro hnodup hmem c hres
    have hloop := remove_loop_ok_of_all_layered packages layered hnodup hmem
    have hcommit : commit_layered_tree repo root_tree target_ref base_ref
        (enum (layered \ packages.toFinset)) =
        .ok (set_ref
          { repo with commits := repo.commits ++
              [{ parent := some c,
                 subject := some ("pacman-ostree: " ++
                   toString (enum (layered \ packages.toFinset)).length ++
                   " layered package(s)"),
                 body := none,
                 metadata := some (commit_metadata base_ref
                   (enum (layered \ packages.toFinset))),
                 root := root_tree, timestamp := 0 }] }
          target_ref ("commit-" ++ toString repo.commits.length),
          "commit-" ++ toString repo.commits.length) := by
      unfold commit_layered_tree resolve_rev write_commit set_ref
      rw [hres]
    refine ⟨set_ref
        { repo with commits := repo.commits ++
            [{ parent := some c,
               subject := some ("pacman-ostree: " ++
                 toString (enum (layered \ packages.toFinset)).length ++
                 " layered package(s)"),
               body := none,
               metadata := some (commit_metadata base_ref
                 (enum (layered \ packages.toFinset))),
               root := root_tree, timestamp := 0 }] }
        target_ref ("commit-" ++ toString repo.commits.length),
      "commit-" ++ toString repo.commits.length, ?_, ?_, ?_⟩
    · simp only [remove_packages, hloop, hcommit]
    · simp [set_ref]
    · simp [set_ref, lookupA_insertAssoc]

/-- C4 witness: removing `bash` when only `vim` is layered leaves the
repository value unchanged and produces the spec's error text. -/
theorem c4_remove_packages_spec_witness :
    remove_packages { refs := [("archlinux/x86_64/base", "c0")], commits := [] }
        "tree" "archlinux/layered" "archlinux/x86_64/base" (fun _ => [])
        ({"vim"} : Finset String) ["bash"] =
      ({ refs := [("archlinux/x86_64/base", "c0")], commits := [] },
        .error (remove_err_msg "bash")) := by
  have h := (c4_remove_packages_spec
    { refs := [("archlinux/x86_64/base", "c0")], commits := [] }
    "tree" "archlinux/layered" "archlinux/x86_64/base" (fun _ => [])
    ({"vim"} : Finset String) ["bash"]).1 ⟨"bash", by decide, by decide⟩
  rcases h with ⟨msg, hloop, heq⟩
  have hmsg : msg = remove_err_msg "bash" := by
    have : remove_packages_loop ["bash"] ({"vim"} : Finset String) =
        .error (remove_err_msg "bash") := rfl
    rw [this] at hloop
    exact (Except.error.injEq _ _).mp hloop.symm
  rw [hmsg] at heq
  exact heq

/-- C4 counterexample: with the duplicated request `["vim", "vim"]` every
requested package is in the layered set `{vim}`, yet the loop fails (the
second occurrence is checked against the already-shrunk set), so the
"all requested packages layered implies success" direction of the claim is
false. -/
theorem c4_duplicate_request_fails :
    "vim" ∈ ({"vim"} : Finset String) ∧
    remove_packages_loop ["vim", "vim"] ({"vim"} : Finset String) =
      .error (remove_err_msg "vim") := by
  refine ⟨by decide, rfl⟩

/-! ### Commit parents (C6) -/

/-- C6 (amended): `generate_commit_from_rootfs` writes its commit with
`parent = None`, but `commit_layered_tree` resolves the base ref and passes
the result as the parent of the new commit, so layered commits chain onto
their base commit rather than forming parentless parallel chains. -/
theorem c6_commit_parents (repo : RepoState) (root_tree target_ref base_ref : String)
    (creation_time : Nat) (layered_iter : List String) (c : String)
    (hres : lookupA repo.refs base_ref = some c) :
    ((generate_commit_write repo root_tree creation_time).1.commits.map CommitObj.parent =
      repo.commits.map CommitObj.parent ++ [none]) ∧
    (∃ repo' checksum,
      commit_layered_tree repo root_tree target_ref base_ref layered_iter =
        .ok (repo', checksum) ∧
      repo'.commits.map CommitObj.parent =
        repo.commits.map CommitObj.parent ++ [some c]) := by
  constructor
  · simp [generate_commit_write, write_commit]
  · refine ⟨set_ref
        { repo with commits := repo.commits ++
            [{ parent := some c,
               subject := some ("pacman-ostree: " ++
                 toString layered_iter.length ++ " layered package(s)"),
               body := none,
               metadata := some (commit_metadata base_ref layered_iter),
               root := root_tree, timestamp := 0 }] }
        target_ref ("commit-" ++ toString repo.commits.length),
      "commit-" ++ toString repo.commits.length, ?_, ?_⟩
    · unfold commit_layered_tree resolve_rev write_commit set_ref
      rw [hres]
    · simp [set_ref]

/-- C6 witness: the two commit writers applied to a concrete repository
holding the base ref. -/
theorem c6_commit_parents_witness :
    (generate_commit_write { refs := [("archlinux/x86_64/base", "basecommit")], commits := [] }
        "roottree" 7).1.commits.map CommitObj.parent = [none] := by
  have h := c6_commit_parents
    { refs := [("archlinux/x86_64/base", "basecommit")], commits := [] }
    "roottree" "archlinux/layered" "archlinux/x86_64/base" 7 [] "basecommit" (by decide)
  simpa using h.1

/-- C6 counterexample: `commit_layered_tree` writes a commit whose parent is
the resolved base commit, not `None`. -/
theorem c6_layered_commit_has_parent :
    commit_layered_tree { refs := [("archlinux/x86_64/base", "basecommit")], commits := [] }
        "roottree" "archlinux/layered" "archlinux/x86_64/base" [] =
      .ok ({ refs := [("archlinux/x86_64/base", "basecommit"), ("archlinux/layered", "commit-0")],
             commits := [{ parent := some "basecommit",
                           subject := some "pacman-ostree: 0 layered package(s)",
                           body := none,
                           metadata := some (commit_metadata "archlinux/x86_64/base" []),
                           root := "roottree", timestamp := 0 }] }, "commit-0") ∧
    some "basecommit" ≠ (none : Option String) := by
  refine ⟨rfl, by decide⟩

/-! ### Encapsulator provenance lemmas (C5) -/

theorem create_meta_step_comp (b : MappingBuilder)
    (hc : ∀ e ∈ b.path_components, e.2 ≠ ([] : List String))
    (cs p : String) (acc : MetaAcc) (h : componentOwned b p = true) :
    create_meta_step b cs acc p = (acc.1, acc.2 ++ [(provenanceSpec b p, p, cs)]) := by
  unfold componentOwned at h
  rcases hl : lookupA b.path_components p with _ | l
  · rw [hl] at h
    simp at h
  · have hne := hc _ (lookupA_mem hl)
    rcases l with _ | ⟨c0, rest⟩
    · exact absurd rfl hne
    · unfold create_meta_step provenanceSpec
      rw [hl]
      simp

theorem create_meta_step_noncomp (b : MappingBuilder)
    (hp : ∀ e ∈ b.path_packages, e.2 ≠ ([] : List String))
    (cs p : String) (acc : MetaAcc) (h : componentOwned b p = false) :
    create_meta_step b cs acc p = (insertAssoc acc.1 cs (provenanceSpec b p), acc.2) := by
  unfold componentOwned at h
  rcases hl : lookupA b.path_components p with _ | l
  · unfold create_meta_step provenanceSpec
    rw [hl]
    rcases hq : lookupA b.path_packages p with _ | q
    · simp
    · have hne := hp _ (lookupA_mem hq)
      rcases q with _ | ⟨p0, rest⟩
      · exact absurd rfl hne
      · simp
  · rw [hl] at h
    simp at h

theorem create_meta_step_fst_cases (b : MappingBuilder) (cs p : String) (acc : MetaAcc) :
    (create_meta_step b cs acc p).1 = acc.1 ∨
    (componentOwned b p = false ∧
      (create_meta_step b cs acc p).1 = insertAssoc acc.1 cs (provenanceSpec b p)) := by
  unfold create_meta_step componentOwned provenanceSpec
  rcases hl : lookupA b.path_components p with _ | l
  · rcases hq : lookupA b.path_packages p with _ | q
    · right
      simp
    · rcases q with _ | ⟨p0, rest⟩
      · left
        simp
      · right
        simp
  · rcases l with _ | ⟨c0, rest⟩ <;> simp

theorem create_meta_step_snd_cases (b : MappingBuilder) (cs p : String) (acc : MetaAcc) :
    (create_meta_step b cs acc p).2 = acc.2 ∨
    (componentOwned b p = true ∧
      (create_meta_step b cs acc p).2 = acc.2 ++ [(provenanceSpec b p, p, cs)]) := by
  unfold create_meta_step componentOwned provenanceSpec
  rcases hl : lookupA b.path_components p with _ | l
  · rcases hq : lookupA b.path_packages p with _ | q
    · left
      simp
    · rcases q with _ | ⟨p0, rest⟩ <;> simp
  · rcases l with _ | ⟨c0, rest⟩ <;> simp

theorem create_meta_inner_snd_mono (b : MappingBuilder) (cs : String) (paths : List String) :
    ∀ (acc : MetaAcc) (x : String × String × String), x ∈ acc.2 →
      x ∈ (create_meta_inner b cs acc paths).2 := by
  induction paths with
  | nil =>
    intro acc x hx
    simpa [create_meta_inner] using hx
  | cons q rest ih =>
    intro acc x hx
    have hstep : x ∈ (create_meta_step b cs acc q).2 := by
      rcases create_meta_step_snd_cases b cs q acc with h | ⟨-, h⟩
      · rw [h]
        exact hx
      · rw [h]
        exact List.mem_append_left _ hx
    exact ih (create_meta_step b cs acc q) x hstep

theorem create_meta_inner_fst_mono (b : MappingBuilder) (cs : String) (paths : List String) :
    ∀ (acc : MetaAcc) (k : String), (lookupA acc.1 k).isSome →
      (lookupA (create_meta_inner b cs acc paths).1 k).isSome := by
  induction paths with
  | nil =>
    intro acc k hk
    simpa [create_meta_inner] using hk
  | cons q rest ih =>
    intro acc k hk
    have hstep : (lookupA (create_meta_step b cs acc q).1 k).isSome := by
      rcases create_meta_step_fst_cases b cs q acc with h | ⟨-, h⟩
      · rw [h]
        exact hk
      · rw [h, lookupA_insertAssoc]
        by_cases hcs : cs = k <;> simp [hcs, hk]
    exact ih (create_meta_step b cs acc q) k hstep

theorem create_meta_go_snd_mono (b : MappingBuilder) (pairs : List (String × List String)) :
    ∀ (acc : MetaAcc) (x : String × String × String), x ∈ acc.2 →
      x ∈ (create_meta_go b acc pairs).2 := by
  induction pairs with
  | nil =>
    intro acc x hx
    simpa [create_meta_go] using hx
  | cons pr rest ih =>
    intro acc x hx
    rcases pr with ⟨cs, paths⟩
    exact ih _ x (create_meta_inner_snd_mono b cs paths acc x hx)

theorem create_meta_go_fst_mono (b : MappingBuilder) (pairs : List (String × List String)) :
    ∀ (acc : MetaAcc) (k : String), (lookupA acc.1 k).isSome →
      (lookupA (create_meta_go b acc pairs).1 k).isSome := by
  induction pairs with
  | nil =>
    intro acc k hk
    simpa [create_meta_go] using hk
  | cons pr rest ih =>
    intro acc k hk
    rcases pr with ⟨cs, paths⟩
    exact ih _ k (create_meta_inner_fst_mono b cs paths acc k hk)

theorem create_meta_inner_snd_new (b : MappingBuilder)
    (hc : ∀ e ∈ b.path_components, e.2 ≠ ([] : List String))
    (cs : String) (paths : List String) :
    ∀ (acc : MetaAcc) (p : String), p ∈ paths → componentOwned b p = true →
      (provenanceSpec b p, p, cs) ∈ (create_meta_inner b cs acc paths).2 := by
  induction paths with
  | nil =>
    intro acc p hp
    simp at hp
  | cons q rest ih =>
    intro acc p hp hcomp
    rcases List.mem_cons.mp hp with rfl | hp'
    · have hstep := create_meta_step_comp b hc cs p acc hcomp
      have hmem : (provenanceSpec b p, p, cs) ∈ (create_meta_step b cs acc p).2 := by
        rw [hstep]
        simp
      exact create_meta_inner_snd_mono b cs rest _ _ hmem
    · exact ih (create_meta_step b cs acc q) p hp' hcomp

theorem create_meta_inner_fst_new (b : MappingBuilder)
    (hp : ∀ e ∈ b.path_packages, e.2 ≠ ([] : List String))
    (cs : String) (paths : List String) :
    ∀ (acc : MetaAcc) (p : String), p ∈ paths → componentOwned b p = false →
      (lookupA (create_meta_inner b cs acc paths).1 cs).isSome := by
  induction paths with
  | nil =>
    intro acc p hp'
    simp at hp'
  | cons q rest ih =>
    intro acc p hpmem hcomp
    rcases List.mem_cons.mp hpmem with rfl | hp'
    · have hstep := create_meta_step_noncomp b hp cs p acc hcomp
      have hmem : (lookupA (create_meta_step b cs acc p).1 cs).isSome := by
        rw [hstep, lookupA_insertAssoc]
        simp
      exact create_meta_inner_fst_mono b cs rest _ _ hmem
    · exact ih (create_meta_step b cs acc q) p hp' hcomp

theorem create_meta_inner_inv (b : MappingBuilder) (cs : String)
    (paths0 : List String) (hpair : (cs, paths0) ∈ b.checksum_paths)
    (paths : List String) (hsub : ∀ p ∈ paths, p ∈ paths0) :
    ∀ (acc : MetaAcc),
      (∀ k v, lookupA acc.1 k = some v → GoodPkg b k v) →
      (∀ x ∈ acc.2, GoodComp b x) →
      (∀ k v, lookupA (create_meta_inner b cs acc paths).1 k = some v → GoodPkg b k v) ∧
      (∀ x ∈ (create_meta_inner b cs acc paths).2, GoodComp b x) := by
  induction paths with
  | nil =>
    intro acc h1 h2
    exact ⟨h1, h2⟩
  | cons q rest ih =>
    intro acc h1 h2
    have hq0 : q ∈ paths0 := hsub q (List.mem_cons_self _ _)
    have hsub' : ∀ p ∈ rest, p ∈ paths0 := fun p hp => hsub p (List.mem_cons_of_mem _ hp)
    have h1' : ∀ k v, lookupA (create_meta_step b cs acc q).1 k = some v → GoodPkg b k v := by
      intro k v hkv
      rcases create_meta_step_fst_cases b cs q acc with h | ⟨hcomp, h⟩
      · rw [h] at hkv
        exact h1 k v hkv
      · rw [h, lookupA_insertAssoc] at hkv
        by_cases hcs : cs = k
        · subst hcs
          simp at hkv
          exact ⟨paths0, q, hpair, hq0, hcomp, hkv.symm⟩
        · rw [if_neg hcs] at hkv
          exact h1 k v hkv
    have h2' : ∀ x ∈ (create_meta_step b cs acc q).2, GoodComp b x := by
      intro x hx
      rcases create_meta_step_snd_cases b cs q acc with h | ⟨hcomp, h⟩
      · rw [h] at hx
        exact h2 x hx
      · rw [h] at hx
        rcases List.mem_append.mp hx with hx' | hx'
        · exact h2 x hx'
        · simp at hx'
          subst hx'
          exact ⟨paths0, hpair, hq0, hcomp, rfl⟩
    exact ih hsub' (create_meta_step b cs acc q) h1' h2'

theorem create_meta_go_inv (b : MappingBuilder) (pairs : List (String × List String))
    (hsub : ∀ x ∈ pairs, x ∈ b.checksum_paths) :
    ∀ (acc : MetaAcc),
      (∀ k v, lookupA acc.1 k = some v → GoodPkg b k v) →
      (∀ x ∈ acc.2, GoodComp b x) →
      (∀ k v, lookupA (create_meta_go b acc pairs).1 k = some v → GoodPkg b k v) ∧
      (∀ x ∈ (create_meta_go b acc pairs).2, GoodComp b x) := by
  induction pairs with
  | nil =>
    intro acc h1 h2
    exact ⟨h1, h2⟩
  | cons pr rest ih =>
    intro acc h1 h2
    rcases pr with ⟨cs, paths⟩
    have hpair : (cs, paths) ∈ b.checksum_paths := hsub _ (List.mem_cons_self _ _)
    have hsub' : ∀ x ∈ rest, x ∈ b.checksum_paths :=
      fun x hx => hsub x (List.mem_cons_of_mem _ hx)
    have hstep := create_meta_inner_inv b cs paths hpair paths (fun _ hp => hp) acc h1 h2
    exact ih hsub' (create_meta_inner b cs acc paths) hstep.1 hstep.2

theorem create_meta_go_snd_new (b : MappingBuilder)
    (hc : ∀ e ∈ b.path_components, e.2 ≠ ([] : List String))
    (pairs : List (String × List String)) :
    ∀ (acc : MetaAcc) (cs : String) (paths : List String) (p : String),
      (cs, paths) ∈ pairs → p ∈ paths → componentOwned b p = true →
      (provenanceSpec b p, p, cs) ∈ (create_meta_go b acc pairs).2 := by
  induction pairs with
  | nil =>
    intro acc cs paths p hmem
    simp at hmem
  | cons pr rest ih =>
    intro acc cs paths p hmem hp hcomp
    rcases List.mem_cons.mp hmem with rfl | hmem'
    · exact create_meta_go_snd_mono b rest _ _
        (create_meta_inner_snd_new b hc cs paths acc p hp hcomp)
    · exact ih _ cs paths p hmem' hp hcomp

theorem create_meta_go_fst_new (b : MappingBuilder)
    (hp : ∀ e ∈ b.path_packages, e.2 ≠ ([] : List String))
    (pairs : List (String × List String)) :
    ∀ (acc : MetaAcc) (cs : String) (paths : List String) (p : String),
      (cs, paths) ∈ pairs → p ∈ paths → componentOwned b p = false →
      (lookupA (create_meta_go b acc pairs).1 cs).isSome := by
  induction pairs with
  | nil =>
    intro acc cs paths p hmem
    simp at hmem
  | cons pr rest ih =>
    intro acc cs paths p hmem hpm hcomp
    rcases List.mem_cons.mp hmem with rfl | hmem'
    · exact create_meta_go_fst_mono b rest _ _
        (create_meta_inner_fst_new b hp cs paths acc p hpm hcomp)
    · exact ih _ cs paths p hmem' hpm hcomp

/-- C5: in `create_meta`, every path gets exactly one provenance content-id
by the priority rule (first sorted component id, else first sorted package
id, else the unpackaged sentinel): component-owned paths are emitted into
the per-component (path, checksum) map with that provenance, the checksums
of all other paths are keys of the checksum-to-package map, every
checksum-to-package binding is the provenance of a non-component path of
that checksum, every component entry is the provenance of a component-owned
path of its checksum, and a path owned by no component and no package gets
the sentinel `pacmanostree-unpackaged-content`. -/
theorem c5_create_meta_provenance (b : MappingBuilder)
    (hc : ∀ e ∈ b.path_components, e.2 ≠ ([] : List String))
    (hp : ∀ e ∈ b.path_packages, e.2 ≠ ([] : List String))
    (hu : b.unpackaged_id = UNPACKAGED_ID) :
    (∀ cs paths p, (cs, paths) ∈ b.checksum_paths → p ∈ paths →
      (componentOwned b p = true →
        (provenanceSpec b p, p, cs) ∈ (create_meta b).2) ∧
      (componentOwned b p = false →
        (lookupA (create_meta b).1 cs).isSome = true)) ∧
    (∀ cs v, lookupA (create_meta b).1 cs = some v → GoodPkg b cs v) ∧
    (∀ x ∈ (create_meta b).2, GoodComp b x) ∧
    (∀ p, componentOwned b p = false → lookupA b.path_packages p = none →
      provenanceSpec b p = UNPACKAGED_ID) := by
  have hinv := create_meta_go_inv b b.checksum_paths (fun _ hx => hx) ([], [])
    (by intro k v hkv; simp [lookupA_nil] at hkv) (by intro x hx; simp at hx)
  refine ⟨?_, hinv.1, hinv.2, ?_⟩
  · intro cs paths p hmem hpmem
    constructor
    · intro hcomp
      exact create_meta_go_snd_new b hc b.checksum_paths ([], []) cs paths p hmem hpmem hcomp
    · intro hcomp
      exact create_meta_go_fst_new b hp b.checksum_paths ([], []) cs paths p hmem hpmem hcomp
  · intro p hcomp hpkg
    unfold provenanceSpec
    unfold componentOwned at hcomp
    rcases hl : lookupA b.path_components p with _ | l
    · rw [hpkg]
      simp [hu]
    · rw [hl] at hcomp
      simp at hcomp

/-- C5 witness: a concrete builder with one component-owned path, one
package-owned path and one unpackaged path. -/
theorem c5_create_meta_provenance_witness :
    (provenanceSpec
        { checksum_paths := [("c1", ["/a", "/b"]), ("c2", ["/c"])],
          path_components := [("/a", ["comp1"])],
          path_packages := [("/b", ["pkgX-1.x86_64", "pkgY-1.x86_64"])],
          unpackaged_id := UNPACKAGED_ID } "/a", "/a", "c1") ∈
      (create_meta
        { checksum_paths := [("c1", ["/a", "/b"]), ("c2", ["/c"])],
          path_components := [("/a", ["comp1"])],
          path_packages := [("/b", ["pkgX-1.x86_64", "pkgY-1.x86_64"])],
          unpackaged_id := UNPACKAGED_ID }).2 := by
  have h := c5_create_meta_provenance
    { checksum_paths := [("c1", ["/a", "/b"]), ("c2", ["/c"])],
      path_components := [("/a", ["comp1"])],
      path_packages := [("/b", ["pkgX-1.x86_64", "pkgY-1.x86_64"])],
      unpackaged_id := UNPACKAGED_ID }
    (by decide) (by decide) rfl
  exact (h.1 "c1" ["/a", "/b"] "/a" (by decide) (by decide)).1 (by decide)

/-! ### Non-UTF-8 symlink target (C7) -/

/-- C7 (evaluation at the failing input): a top-level symlink whose target
bytes are not valid UTF-8 makes the composition panic through
`to_str().unwrap()` — it produces neither an `encoding` nor an `io` error
value — and no commit is published (the unwind drops the transaction
guard). -/
theorem c7_non_utf8_symlink_target_panics :
    generate_commit_toplevel [TopEntry.symlink "badlink" [255]] =
      .panicked "called Option::unwrap() on a None value" ∧
    validUtf8 [255] = false ∧
    publishedCommit (generate_commit_toplevel [TopEntry.symlink "badlink" [255]]) = false ∧
    isErrorOfKind (generate_commit_toplevel [TopEntry.symlink "badlink" [255]])
      ErrKind.encoding = false ∧
    isErrorOfKind (generate_commit_toplevel [TopEntry.symlink "badlink" [255]])
      ErrKind.io = false := by
  exact ⟨rfl, rfl, rfl, rfl, rfl⟩

/-! ### Rootfs normalization idempotence (C8) -/

theorem lookupG_nil {κ α : Type} [DecidableEq κ] (k : κ) :
    lookupG ([] : List (κ × α)) k = none := rfl

theorem lookupG_cons {κ α : Type} [DecidableEq κ] (k k' : κ) (v : α) (m : List (κ × α)) :
    lookupG ((k', v) :: m) k = if k' = k then some v else lookupG m k := by
  by_cases h : k' = k <;> simp [lookupG, List.find?, h]

theorem lookupG_removeKeyG {κ α : Type} [DecidableEq κ] (m : List (κ × α)) (n k : κ) :
    lookupG (removeKeyG m n) k = if k = n then none else lookupG m k := by
  induction m with
  | nil => by_cases h : k = n <;> simp [removeKeyG, lookupG_nil, h]
  | cons e rest ih =>
    rcases e with ⟨k₀, v₀⟩
    by_cases h0 : k₀ = n
    · subst h0
      by_cases h : k = k₀
      · subst h
        simp [removeKeyG, ih]
      · have h2 : ¬ k₀ = k := fun hc => h (hc.symm)
        simp [removeKeyG, lookupG_cons, h, h2, ih]
    · by_cases h : k₀ = k
      · subst h
        simp [removeKeyG, h0, lookupG_cons]
      · simp [removeKeyG, h0, lookupG_cons, h, ih]

theorem lookupG_append_single {κ α : Type} [DecidableEq κ]
    (m : List (κ × α)) (p : κ) (n : α) (q : κ) :
    lookupG (m ++ [(p, n)]) q =
      match lookupG m q with
      | some v => some v
      | none => if q = p then some n else none := by
  induction m with
  | nil =>
    by_cases h : p = q
    · subst h
      simp [lookupG_nil, lookupG_cons]
    · have h2 : ¬ q = p := fun hc => h hc.symm
      simp [lookupG_nil, lookupG_cons, h, h2]
  | cons e rest ih =>
    rcases e with ⟨k₀, v₀⟩
    by_cases h : k₀ = q
    · simp [List.cons_append, lookupG_cons, h]
    · simp [List.cons_append, lookupG_cons, h, ih]

theorem lookupG_append_single_of_none {κ α : Type} [DecidableEq κ]
    {m : List (κ × α)} {q : κ} (p : κ) (n : α) (h : lookupG m q = none) :
    lookupG (m ++ [(p, n)]) q = if q = p then some n else none := by
  have hx := lookupG_append_single m p n q
  rw [h] at hx
  exact hx

theorem lookupG_append_single_of_some {κ α : Type} [DecidableEq κ]
    {m : List (κ × α)} {q : κ} {v : α} (p : κ) (n : α) (h : lookupG m q = some v) :
    lookupG (m ++ [(p, n)]) q = some v := by
  have hx := lookupG_append_single m p n q
  rw [h] at hx
  exact hx

theorem lookupFs_removeFsEntry (fs : FsState) (p q : FPath) :
    lookupFs (removeFsEntry fs p) q = if q = p then none else lookupFs fs q := by
  rcases fs with ⟨es⟩
  exact lookupG_removeKeyG es p q

theorem lookupFs_insert_of_none {fs : FsState} {q : FPath} (p : FPath) (n : FsNode)
    (h : lookupFs fs q = none) :
    lookupFs (insertFsEntry fs p n) q = if q = p then some n else none := by
  rcases fs with ⟨es⟩
  exact lookupG_append_single_of_none p n h

theorem lookupFs_insert_of_some {fs : FsState} {q : FPath} {v : FsNode}
    (p : FPath) (n : FsNode) (h : lookupFs fs q = some v) :
    lookupFs (insertFsEntry fs p n) q = some v := by
  rcases fs with ⟨es⟩
  exact lookupG_append_single_of_some p n h

theorem resolveNode_succ (fs : FsState) (fuel : Nat) (p : FPath) :
    resolveNode fs (fuel + 1) p =
      match lookupFs fs p with
      | some (FsNode.symlink t) => resolveNode fs fuel t
      | other => other := rfl

theorem pathExistsFs_lookup_dir {fs : FsState} {p : FPath}
    (h : lookupFs fs p = some FsNode.dir) : pathExistsFs fs p = true := by
  unfold pathExistsFs
  rw [show (40 : Nat) = 39 + 1 from rfl, resolveNode_succ, h]
  rfl

theorem pathExistsFs_lookup_none {fs : FsState} {p : FPath}
    (h : lookupFs fs p = none) : pathExistsFs fs p = false := by
  unfold pathExistsFs
  rw [show (40 : Nat) = 39 + 1 from rfl, resolveNode_succ, h]
  rfl

theorem pathExistsFs_symlink_dir {fs : FsState} {p t : FPath}
    (h1 : lookupFs fs p = some (FsNode.symlink t))
    (h2 : lookupFs fs t = some FsNode.dir) : pathExistsFs fs p = true := by
  unfold pathExistsFs
  rw [show (40 : Nat) = 39 + 1 from rfl, resolveNode_succ, h1]
  show (resolveNode fs 39 t).isSome = true
  rw [show (39 : Nat) = 38 + 1 from rfl, resolveNode_succ, h2]
  rfl

theorem pathExistsFs_symlink_none {fs : FsState} {p t : FPath}
    (h1 : lookupFs fs p = some (FsNode.symlink t))
    (h2 : lookupFs fs t = none) : pathExistsFs fs p = false := by
  unfold pathExistsFs
  rw [show (40 : Nat) = 39 + 1 from rfl, resolveNode_succ, h1]
  show (resolveNode fs 39 t).isSome = false
  rw [show (39 : Nat) = 38 + 1 from rfl, resolveNode_succ, h2]
  rfl

theorem isDirFs_lookup_dir {fs : FsState} {p : FPath}
    (h : lookupFs fs p = some FsNode.dir) : isDirFs fs p = true := by
  unfold isDirFs
  rw [show (40 : Nat) = 39 + 1 from rfl, resolveNode_succ, h]
  simp

/-- After a successful normalization the required directories exist, so a
second required-directory pass changes nothing. -/
theorem createRequiredDirs_noop (fs : FsState)
    (hboot : lookupFs fs ["boot"] = some FsNode.dir)
    (hsys : lookupFs fs ["sysroot"] = some FsNode.dir)
    (hvar : lookupFs fs ["var"] = some FsNode.dir)
    (hvh : lookupFs fs ["var", "home"] = some FsNode.dir)
    (hso : lookupFs fs ["sysroot", "ostree"] = some FsNode.dir)
    (hvr : lookupFs fs ["var", "roothome"] = some FsNode.dir) :
    createRequiredDirs fs = .ok fs := by
  have h1 : create_dir_all fs ["boot"] = .ok fs := by
    simp [create_dir_all, create_dir_all.go, prefixesOf, isDirFs_lookup_dir hboot]
  have h2 : create_dir_all fs ["sysroot"] = .ok fs := by
    simp [create_dir_all, create_dir_all.go, prefixesOf, isDirFs_lookup_dir hsys]
  have h3 : create_dir_all fs ["var", "home"] = .ok fs := by
    simp [create_dir_all, create_dir_all.go, prefixesOf,
      isDirFs_lookup_dir hvar, isDirFs_lookup_dir hvh]
  have h4 : create_dir_all fs ["sysroot", "ostree"] = .ok fs := by
    simp [create_dir_all, create_dir_all.go, prefixesOf,
      isDirFs_lookup_dir hsys, isDirFs_lookup_dir hso]
  have h5 : create_dir_all fs ["var", "roothome"] = .ok fs := by
    simp [create_dir_all, create_dir_all.go, prefixesOf,
      isDirFs_lookup_dir hvar, isDirFs_lookup_dir hvr]
  simp [createRequiredDirs, createRequiredDirs.go, requiredDirs, h1, h2, h3, h4, h5]

/-- On a normalized state, the forbidden-directory pass removes (and only
removes) the `home` and `root` symlinks: their targets exist, so `exists()`
is true and `remove_dir_all` removes the links themselves, while the
dangling `usr/local` and `srv` links fail the `exists()` check and are
skipped. -/
theorem removeForbidden_normalized (fs : FsState)
    (hvlog : lookupFs fs ["var", "log"] = none)
    (hhome : lookupFs fs ["home"] = some (FsNode.symlink ["var", "home"]))
    (hvh : lookupFs fs ["var", "home"] = some FsNode.dir)
    (hroot : lookupFs fs ["root"] = some (FsNode.symlink ["var", "roothome"]))
    (hvr : lookupFs fs ["var", "roothome"] = some FsNode.dir)
    (hul : lookupFs fs ["usr", "local"] = some (FsNode.symlink ["var", "usrlocal"]))
    (hvu : lookupFs fs ["var", "usrlocal"] = none)
    (hsrv : lookupFs fs ["srv"] = some (FsNode.symlink ["var", "srv"]))
    (hvs : lookupFs fs ["var", "srv"] = none) :
    removeForbidden fs = .ok (removeFsEntry (removeFsEntry fs ["home"]) ["root"]) := by
  have e1 : pathExistsFs fs ["var", "log"] = false := pathExistsFs_lookup_none hvlog
  have e2 : pathExistsFs fs ["home"] = true := pathExistsFs_symlink_dir hhome hvh
  have r2 : remove_dir_all fs ["home"] = .ok (removeFsEntry fs ["home"]) := by
    unfold remove_dir_all
    rw [hhome]
  have lA : ∀ q, ¬ q = ["home"] →
      lookupFs (removeFsEntry fs ["home"]) q = lookupFs fs q := by
    intro q hq
    rw [lookupFs_removeFsEntry, if_neg hq]
  have hrootA : lookupFs (removeFsEntry fs ["home"]) ["root"] =
      some (FsNode.symlink ["var", "roothome"]) :=
    (lA ["root"] (by decide)).trans hroot
  have hvrA : lookupFs (removeFsEntry fs ["home"]) ["var", "roothome"] =
      some FsNode.dir :=
    (lA ["var", "roothome"] (by decide)).trans hvr
  have e3 : pathExistsFs (removeFsEntry fs ["home"]) ["root"] = true :=
    pathExistsFs_symlink_dir hrootA hvrA
  have r3 : remove_dir_all (removeFsEntry fs ["home"]) ["root"] =
      .ok (removeFsEntry (removeFsEntry fs ["home"]) ["root"]) := by
    unfold remove_dir_all
    rw [hrootA]
  have lB : ∀ q, ¬ q = ["root"] → ¬ q = ["home"] →
      lookupFs (removeFsEntry (removeFsEntry fs ["home"]) ["root"]) q = lookupFs fs q := by
    intro q h1 h2
    rw [lookupFs_removeFsEntry, if_neg h1, lookupFs_removeFsEntry, if_neg h2]
  have hulB : lookupFs (removeFsEntry (removeFsEntry fs ["home"]) ["root"])
      ["usr", "local"] = some (FsNode.symlink ["var", "usrlocal"]) :=
    (lB ["usr", "local"] (by decide) (by decide)).trans hul
  have hvuB : lookupFs (removeFsEntry (removeFsEntry fs ["home"]) ["root"])
      ["var", "usrlocal"] = none :=
    (lB ["var", "usrlocal"] (by decide) (by decide)).trans hvu
  have e4 : pathExistsFs (removeFsEntry (removeFsEntry fs ["home"]) ["root"])
      ["usr", "local"] = false :=
    pathExistsFs_symlink_none hulB hvuB
  have hsrvB : lookupFs (removeFsEntry (removeFsEntry fs ["home"]) ["root"])
      ["srv"] = some (FsNode.symlink ["var", "srv"]) :=
    (lB ["srv"] (by decide) (by decide)).trans hsrv
  have hvsB : lookupFs (removeFsEntry (removeFsEntry fs ["home"]) ["root"])
      ["var", "srv"] = none :=
    (lB ["var", "srv"] (by decide) (by decide)).trans hvs
  have e5 : pathExistsFs (removeFsEntry (removeFsEntry fs ["home"]) ["root"])
      ["srv"] = false :=
    pathExistsFs_symlink_none hsrvB hvsB
  simp [removeForbidden, removeForbidden.go, forbiddenDirs, e1, e2, r2, e3, r3, e4, e5]

/-- On the state left by the forbidden-directory pass, the symlink pass
recreates `home` and `root` and then hits the still-present dangling
`usr/local` link: `exists()` is false (target absent), so the link is not
removed, and `symlink` fails with `File exists`. -/
theorem makeCompatSymlinks_fails (fs : FsState)
    (hhome : lookupFs fs ["home"] = none)
    (hroot : lookupFs fs ["root"] = none)
    (hul : lookupFs fs ["usr", "local"] = some (FsNode.symlink ["var", "usrlocal"]))
    (hvu : lookupFs fs ["var", "usrlocal"] = none) :
    makeCompatSymlinks fs = .error "File exists" := by
  have p1 : pathExistsFs fs ["home"] = false := pathExistsFs_lookup_none hhome
  have s1 : symlink_create fs ["var", "home"] ["home"] =
      .ok (insertFsEntry fs ["home"] (FsNode.symlink ["var", "home"])) := by
    unfold symlink_create lexistsFs
    rw [hhome]
    simp
  have hrootC : lookupFs (insertFsEntry fs ["home"] (FsNode.symlink ["var", "home"]))
      ["root"] = none := by
    rw [lookupFs_insert_of_none _ _ hroot]
    simp
  have p2 : pathExistsFs (insertFsEntry fs ["home"] (FsNode.symlink ["var", "home"]))
      ["root"] = false := pathExistsFs_lookup_none hrootC
  have s2 : symlink_create (insertFsEntry fs ["home"] (FsNode.symlink ["var", "home"]))
      ["var", "roothome"] ["root"] =
      .ok (insertFsEntry (insertFsEntry fs ["home"] (FsNode.symlink ["var", "home"]))
        ["root"] (FsNode.symlink ["var", "roothome"])) := by
    unfold symlink_create lexistsFs
    rw [hrootC]
    simp
  have hulD : lookupFs (insertFsEntry
      (insertFsEntry fs ["home"] (FsNode.symlink ["var", "home"]))
      ["root"] (FsNode.symlink ["var", "roothome"])) ["usr", "local"] =
      some (FsNode.symlink ["var", "usrlocal"]) := by
    rw [lookupFs_insert_of_some _ _ (lookupFs_insert_of_some _ _ hul)]
  have hvuD : lookupFs (insertFsEntry
      (insertFsEntry fs ["home"] (FsNode.symlink ["var", "home"]))
      ["root"] (FsNode.symlink ["var", "roothome"])) ["var", "usrlocal"] = none := by
    rw [lookupFs_insert_of_none _ _ (by rw [lookupFs_insert_of_none _ _ hvu]; simp)]
    simp
  have p3 : pathExistsFs (insertFsEntry
      (insertFsEntry fs ["home"] (FsNode.symlink ["var", "home"]))
      ["root"] (FsNode.symlink ["var", "roothome"])) ["usr", "local"] = false :=
    pathExistsFs_symlink_none hulD hvuD
  have s3 : symlink_create (insertFsEntry
      (insertFsEntry fs ["home"] (FsNode.symlink ["var", "home"]))
      ["root"] (FsNode.symlink ["var", "roothome"]))
      ["var", "usrlocal"] ["usr", "local"] = .error "File exists" := by
    unfold symlink_create lexistsFs
    rw [hulD]
    simp
  simp [makeCompatSymlinks, makeCompatSymlinks.go, compatSymlinks,
    p1, s1, p2, s2, p3, s3]

/-- C8 (amended): the normalization sequence is not idempotent.  On any
state it has itself produced where the compatibility-symlink targets
`var/usrlocal` and `var/srv` are absent (they are not among the created
directories), a second application removes and recreates the `home` and
`root` symlinks and then fails with `File exists` at the dangling
`usr/local` link, whose `exists()` check is false so it is not removed
before `symlink` is called.  A second application succeeds without new
removals or replacements only in states where no compatibility symlink
needs rewriting, which the first application never leaves behind. -/
theorem c8_second_normalization_fails (fs : FsState)
    (hboot : lookupFs fs ["boot"] = some FsNode.dir)
    (hsys : lookupFs fs ["sysroot"] = some FsNode.dir)
    (hvar : lookupFs fs ["var"] = some FsNode.dir)
    (hvh : lookupFs fs ["var", "home"] = some FsNode.dir)
    (hso : lookupFs fs ["sysroot", "ostree"] = some FsNode.dir)
    (hvr : lookupFs fs ["var", "roothome"] = some FsNode.dir)
    (hvlog : lookupFs fs ["var", "log"] = none)
    (hhome : lookupFs fs ["home"] = some (FsNode.symlink ["var", "home"]))
    (hroot : lookupFs fs ["root"] = some (FsNode.symlink ["var", "roothome"]))
    (hul : lookupFs fs ["usr", "local"] = some (FsNode.symlink ["var", "usrlocal"]))
    (hvu : lookupFs fs ["var", "usrlocal"] = none)
    (hsrv : lookupFs fs ["srv"] = some (FsNode.symlink ["var", "srv"]))
    (hvs : lookupFs fs ["var", "srv"] = none) :
    normalize_rootfs fs = .error "File exists" := by
  have s1 := createRequiredDirs_noop fs hboot hsys hvar hvh hso hvr
  have s2 := removeForbidden_normalized fs hvlog hhome hvh hroot hvr hul hvu hsrv hvs
  have hhomeB : lookupFs (removeFsEntry (removeFsEntry fs ["home"]) ["root"])
      ["home"] = none := by
    rw [lookupFs_removeFsEntry, if_neg (by decide), lookupFs_removeFsEntry, if_pos rfl]
  have hrootB : lookupFs (removeFsEntry (removeFsEntry fs ["home"]) ["root"])
      ["root"] = none := by
    rw [lookupFs_removeFsEntry, if_pos rfl]
  have hulB : lookupFs (removeFsEntry (removeFsEntry fs ["home"]) ["root"])
      ["usr", "local"] = some (FsNode.symlink ["var", "usrlocal"]) := by
    rw [lookupFs_removeFsEntry, if_neg (by decide),
      lookupFs_removeFsEntry, if_neg (by decide)]
    exact hul
  have hvuB : lookupFs (removeFsEntry (removeFsEntry fs ["home"]) ["root"])
      ["var", "usrlocal"] = none := by
    rw [lookupFs_removeFsEntry, if_neg (by decide),
      lookupFs_removeFsEntry, if_neg (by decide)]
    exact hvu
  have s3 := makeCompatSymlinks_fails
    (removeFsEntry (removeFsEntry fs ["home"]) ["root"]) hhomeB hrootB hulB hvuB
  simp [normalize_rootfs, s1, s2, s3]

/-- C8 witness for the amended theorem: a concrete normalized state (the
shape the first run produces from a staging directory with a `usr`
directory), on which the second run fails with `File exists`. -/
theorem c8_second_normalization_fails_witness :
    normalize_rootfs
      ⟨[(["usr"], FsNode.dir), (["boot"], FsNode.dir), (["sysroot"], FsNode.dir),
        (["var"], FsNode.dir), (["var", "home"], FsNode.dir),
        (["sysroot", "ostree"], FsNode.dir), (["var", "roothome"], FsNode.dir),
        (["home"], FsNode.symlink ["var", "home"]),
        (["root"], FsNode.symlink ["var", "roothome"]),
        (["usr", "local"], FsNode.symlink ["var", "usrlocal"]),
        (["srv"], FsNode.symlink ["var", "srv"]),
        (["ostree"], FsNode.symlink ["sysroot", "ostree"])]⟩ =
      .error "File exists" := by
  exact c8_second_normalization_fails _ rfl rfl rfl rfl rfl rfl rfl rfl rfl rfl rfl rfl rfl

/-- C8 counterexample: a staging directory holding just a `usr` directory.
The first normalization succeeds (leaving dangling `usr/local` and `srv`
symlinks, since `var/usrlocal` and `var/srv` do not exist); applying the
normalization a second time fails with `File exists` instead of succeeding,
because the dangling `usr/local` symlink fails the `exists()` check and is
therefore not removed before `symlink` is called. -/
theorem c8_normalize_not_idempotent :
    normalizeOk (normalize_rootfs ⟨[(["usr"], FsNode.dir)]⟩) = true ∧
    Except.bind (normalize_rootfs ⟨[(["usr"], FsNode.dir)]⟩) normalize_rootfs =
      Except.error "File exists" := by
  exact ⟨rfl, rfl⟩

/-- C10: every `PacmanPackageMeta` produced by the `read_packages_from_commit`
pipeline has an empty `changelogs` list and `src_pkg` equal to `pkgname`
(the `desc` parser never populates them differently), so the package
content-group handed to the encapsulator has `change_frequency = 0` and a
source id equal to the package's own name. -/
theorem c10_changelogs_empty_srcpkg_is_pkgname (descLines : List String)
    (filesLines : Option (List String)) (lowest_change_time : Nat) :
    (read_package_entry descLines filesLines).changelogs = [] ∧
    (read_package_entry descLines filesLines).src_pkg =
      (read_package_entry descLines filesLines).pkgname ∧
    (pkg_source_meta (read_package_entry descLines filesLines)
      lowest_change_time).change_frequency = 0 ∧
    (pkg_source_meta (read_package_entry descLines filesLines)
      lowest_change_time).srcid =
      (read_package_entry descLines filesLines).pkgname := by
  cases filesLines <;>
    simp [read_package_entry, parse_desc_from_bytes, pkg_source_meta]

end PacmanOstree
